import Mathlib

/-!
# Verification of the esb2ha HDF ingestion and translation core

Shallow embedding of the measurement-series pipeline of the esb2ha
repository: the HDF row ingestor, the daylight-saving timestamp
disambiguator (`fixTimezone`, in both revisions present in the tree),
the segmenter (`splitTimes`) and the energy aggregator (`Translate`),
together with theorems settling the frozen claims about them.

Conventions of the embedding:

* Go `time.Time` values are modelled by `GoTime`: an absolute instant as
  whole seconds since 2023-01-01 00:00:00 UTC plus a nanosecond part.
  Every time built by the pipeline lives in the `Europe/Dublin` location,
  whose zone table is modelled for the window the repository's data
  inhabits (the year 2023 with its two transitions: 2023-03-26 01:00 UTC
  and 2023-10-29 01:00 UTC, the following zone lasting until
  2024-03-31 01:00 UTC).  `time.Duration` values are exact integer
  nanoseconds; the float64 comparisons `Minutes() == 30`, `<= 0` and
  `Hours() == 1` of the source coincide with the corresponding exact
  integer comparisons, since a discrepancy of even one nanosecond moves
  the quotient away from the constant by far more than an ulp.
* `float64` reading values are modelled in `ℚ`.  The aggregator performs
  only additions and exact halvings, so the algebraic structure of its
  accumulator claims is faithfully represented.
* The CSV layer is modelled at the record level: the input of `HDF` is
  the list of records (each a list of fields) that `encoding/csv` would
  yield, with the field-count check `csv.Reader` performs (the header
  fixes `FieldsPerRecord` to 5) made explicit.
-/

namespace Esb2ha

/-! ## Go time model: Europe/Dublin around the 2023 transitions -/

/-- 2023-03-26 01:00:00 UTC, seconds since 2023-01-01 00:00 UTC:
the spring transition (GMT → IST). -/
def springTransition : Int := 7261200

/-- 2023-10-29 01:00:00 UTC: the autumn transition (IST → GMT). -/
def autumnTransition : Int := 26010000

/-- 2024-03-31 01:00:00 UTC: end of the modelled winter zone. -/
def nextSpringTransition : Int := 38754000

/-- 2022-10-30 01:00:00 UTC: start of the modelled leading winter zone. -/
def prevAutumnTransition : Int := -5439600

/-- The `Europe/Dublin` zone lookup for the modelled window:
given an absolute instant (seconds since 2023-01-01 00:00 UTC) returns
`(name, offsetSeconds, zoneStart, zoneEnd)` as Go's `Location.lookup`
does.  During winter Ireland is on GMT (UTC+0), during summer on IST
(Irish Standard Time, UTC+1): the daylight-saving offset. -/
def dublinLookup (t : Int) : String × Int × Int × Int :=
  if t < springTransition then ("GMT", 0, prevAutumnTransition, springTransition)
  else if t < autumnTransition then ("IST", 3600, springTransition, autumnTransition)
  else ("GMT", 0, autumnTransition, nextSpringTransition)

/-- A Go `time.Time` in the `Europe/Dublin` location: absolute seconds
since 2023-01-01 00:00:00 UTC plus the nanosecond part. -/
structure GoTime where
  sec : Int
  nsec : Int
  deriving DecidableEq, Repr

namespace GoTime

/-- `t.Zone()`'s name component. -/
def zoneName (t : GoTime) : String := (dublinLookup t.sec).1

/-- `t.Zone()`'s offset component, in seconds. -/
def offset (t : GoTime) : Int := (dublinLookup t.sec).2.1

/-- `t.Add(d)` for a whole-second duration `d` (the source only adds
`±time.Hour` and `-30 * time.Minute`). -/
def addSec (t : GoTime) (d : Int) : GoTime := ⟨t.sec + d, t.nsec⟩

/-- `t.Equal(u)`: instant equality. -/
def equal (t u : GoTime) : Bool := t.sec == u.sec && t.nsec == u.nsec

/-- `t.Sub(u)`: the duration as exact integer nanoseconds
(`time.Duration`'s content).  The source compares the float64
quotients `d.Minutes()` and `d.Hours()` only against the constants
`30`, `0` and `1`; within the int64 duration range those float
comparisons coincide with exact comparisons on this integer, since a
discrepancy of even one nanosecond moves the quotient away from the
constant by far more than an ulp. -/
def sub (t u : GoTime) : Int := (t.sec - u.sec) * 1000000000 + (t.nsec - u.nsec)

/-- Wall-clock seconds since the epoch: instant plus zone offset. -/
def wallSec (t : GoTime) : Int := t.sec + t.offset

/-- `t.Minute()`: the wall-clock minute component, in `0..59`. -/
def minute (t : GoTime) : Int := (t.wallSec.ediv 60).emod 60

/-- `t.Second()`: the wall-clock second component, in `0..59`
(zone offsets are whole minutes, so this is the instant's second). -/
def second (t : GoTime) : Int := t.wallSec.emod 60

end GoTime

/-- 30 minutes as a `time.Duration` (nanoseconds). -/
def thirtyMinutes : Int := 1800000000000

/-- One hour as a `time.Duration` (nanoseconds). -/
def oneHour : Int := 3600000000000

/-! ## Parse data model (`src/src/parse/parse.go`) -/

/-- The expected read-type constant `wantReadType`. -/
def wantReadType : String := "Active Import Interval (kW)"

/-- The expected header `headerFormat`. -/
def headerFormat : List String :=
  ["MPRN", "Meter Serial Number", "Read Value", "Read Type", "Read Date and End Time"]

/-- `Read`: a single line of the HDF. -/
structure Read where
  Value : ℚ
  EndTime : GoTime
  deriving DecidableEq, Repr

/-- `Result`: the parsed HDF file (one segment after splitting). -/
structure Result where
  MPRN : String
  MeterSerialNumber : String
  ReadTypes : String
  Reads : List Read
  deriving DecidableEq, Repr

/-- The errors of the parse package, with the context their `fmt.Errorf`
messages carry. -/
inductive HdfError where
  | headerRead
  | headerLen (got want : Nat)
  | headerField (i : Nat) (got want : String)
  | fieldCount (line got : Nat)
  | badReadType (line : Nat) (got : String)
  | badValue (line : Nat)
  | badTime (line : Nat)
  | multipleMPRN (a b : String)
  | multipleSerial (a b : String)
  | notAligned (ts : GoTime)
  | notSorted (last cur : GoTime)
  deriving DecidableEq, Repr

namespace parse

/-- `isHalfSharp` checks that the timestamp is at the hour or half an
hour sharp; returns the error it raises, if any. -/
def isHalfSharp (ts : GoTime) : Option HdfError :=
  if ts.second ≠ 0 ∨ ts.nsec ≠ 0 ∨ (ts.minute ≠ 0 ∧ ts.minute ≠ 30) then
    some (.notAligned ts)
  else none

/-- `isRound` returns whether the time is an hour round:
`t.Round(time.Hour).Equal(t)`.  `Round` works on the absolute instant
(the epoch is itself hour-aligned), so this holds exactly when the
instant is a whole hour with no nanosecond part. -/
def isRound (t : GoTime) : Bool := t.sec % 3600 == 0 && t.nsec == 0

/-- The reads the aggregation loop actually ranges over: `Translate`
drops the leading reading when it lands exactly on the hour
(`reads = reads[1:]`). -/
def trimmed : List Read → List Read
  | [] => []
  | r :: rest => if isRound r.EndTime then rest else r :: rest

/-! ### Timestamp and value parsing -/

/-- The numeric value of a two-digit field, or `none` if not digits. -/
def d2 (a b : Char) : Option Nat :=
  if a.isDigit ∧ b.isDigit then some ((a.toNat - 48) * 10 + (b.toNat - 48)) else none

/-- The numeric value of a nonempty all-digit character list. -/
def digitsVal (cs : List Char) : Option Nat :=
  if cs ≠ [] ∧ cs.all Char.isDigit then
    some (cs.foldl (fun a c => a * 10 + (c.toNat - 48)) 0)
  else none

/-- Models `strconv.ParseFloat` on the plain decimal notation the HDF
export uses (spec §6): optional sign, integer digits, optionally a
point and fraction digits.  The value is exact in `ℚ`. -/
def parseGoFloat (s : String) : Option ℚ :=
  let cs := s.toList
  let sgn : ℚ := match cs with | '-' :: _ => -1 | _ => 1
  let cs := match cs with | '-' :: rest => rest | '+' :: rest => rest | _ => cs
  match cs.span (· ≠ '.') with
  | (intPart, []) => (digitsVal intPart).map (fun n => sgn * n)
  | (intPart, _ :: fracPart) =>
    match digitsVal intPart, digitsVal fracPart with
    | some n, some f => some (sgn * ((n : ℚ) + (f : ℚ) / ((10 : ℚ) ^ fracPart.length)))
    | _, _ => none

/-- Whether `y` is a Gregorian leap year (`%` is Go's truncated
remainder; the test is sign-independent). -/
def isLeap (y : Int) : Bool := y % 4 == 0 && (y % 100 != 0 || y % 400 == 0)

/-- Days in month `m` of year `y`. -/
def daysIn (y m : Int) : Int :=
  if m == 2 then (if isLeap y then 29 else 28)
  else if m == 4 || m == 6 || m == 9 || m == 11 then 30
  else 31

/-- Days from 1970-01-01 to the civil date `y-m-d` (proleptic
Gregorian; the standard era-based conversion). -/
def daysFromCivil (y m d : Int) : Int :=
  let y' := if m ≤ 2 then y - 1 else y
  let era := (if 0 ≤ y' then y' else y' - 399).ediv 400
  let yoe := y' - era * 400
  let doy := (153 * ((m + 9).emod 12) + 2).ediv 5 + d - 1
  let doe := yoe * 365 + yoe.ediv 4 - yoe.ediv 100 + doy
  era * 146097 + doe - 719468

/-- Days from the model epoch 2023-01-01 to 1970-01-01. -/
def epochCivilDays : Int := 19358

/-- Go `time.Date`'s zone resolution: interprets the wall-clock seconds
`w` as if they were UTC, looks up the zone, shifts by its offset, and
re-looks up just outside the zone's validity window when the shifted
instant falls outside it.  For Dublin this sends an ambiguous autumn
wall time to the standard (GMT) occurrence and a nonexistent spring
wall time one hour forward. -/
def goDate (w : Int) : GoTime :=
  let z := dublinLookup w
  let offset := z.2.1
  let start := z.2.2.1
  let stop := z.2.2.2
  if offset ≠ 0 then
    let utc := w - offset
    let offset :=
      if utc < start then (dublinLookup (start - 1)).2.1
      else if stop ≤ utc then (dublinLookup stop).2.1
      else offset
    ⟨w - offset, 0⟩
  else ⟨w, 0⟩

/-- Models `time.ParseInLocation("02-01-2006 15:04", s, irelandTimezone)`:
fixed-width zero-padded fields, range validation, then `time.Date`'s
zone resolution over the Dublin table. -/
def parseDublinTime (s : String) : Option GoTime :=
  match s.toList with
  | [a1, a0, '-', b1, b0, '-', c3, c2, c1, c0, ' ', e1, e0, ':', f1, f0] =>
    match d2 a1 a0, d2 b1 b0, d2 c3 c2, d2 c1 c0, d2 e1 e0, d2 f1 f0 with
    | some dd, some mm, some yh, some yl, some hh, some nn =>
      let yy : Int := yh * 100 + yl
      if 1 ≤ mm ∧ mm ≤ 12 ∧ 1 ≤ dd ∧ (dd : Int) ≤ daysIn yy mm ∧ hh ≤ 23 ∧ nn ≤ 59 then
        some (goDate (((daysFromCivil yy mm dd - epochCivilDays) * 1440
          + (hh : Int) * 60 + (nn : Int)) * 60))
      else none
    | _, _, _, _, _, _ => none
  | _ => none

/-- One parsed data line (the package-private `line` struct). -/
structure Line where
  MPRN : String
  SerialNumber : String
  Value : ℚ
  EndTime : GoTime
  deriving DecidableEq, Repr

/-- `parseLine`: read-type check, value parse, timestamp parse, in the
source's order; fields 0..4 are MPRN, serial number, value, read type
and timestamp. -/
def parseLine (lineNumber : Nat) (record : List String) : Except HdfError Line :=
  if record.getD 3 "" ≠ wantReadType then .error (.badReadType lineNumber (record.getD 3 ""))
  else
    match parseGoFloat (record.getD 2 "") with
    | none => .error (.badValue lineNumber)
    | some v =>
      match parseDublinTime (record.getD 4 "") with
      | none => .error (.badTime lineNumber)
      | some t => .ok ⟨record.getD 0 "", record.getD 1 "", v, t⟩

/-- `validateHeader`: length then element-by-element comparison with
`headerFormat`, reporting the first mismatch. -/
def validateHeader (h : List String) : Option HdfError :=
  if h.length ≠ 5 then some (.headerLen h.length 5)
  else
    match (List.range 5).find? (fun i => h.getD i "" != headerFormat.getD i "") with
    | some i => some (.headerField i (h.getD i "") (headerFormat.getD i ""))
    | none => none

/-! ### The timestamp disambiguator, current revision
(`src/src/parse/parse.go` lines 128–167).  The naive resolver assigns
the standard (GMT) offset to both occurrences of the repeated autumn
hour, so only GMT readings can be misclassified. -/

/-- One iteration of the current `fixTimezone` loop at index `i`:
skip non-GMT readings; if an entry two positions later exists and
equals this instant, shift this reading one hour back; failing that,
if an entry two positions earlier exists, adopt its instant plus one
hour when that lands in a different zone offset. -/
def fixStep (l : List Read) (i : Nat) : List Read :=
  match l[i]? with
  | none => l
  | some r =>
    if r.EndTime.zoneName ≠ "GMT" then l
    else if i + 2 < l.length then
      match l[i + 2]? with
      | none => l
      | some q =>
        if q.EndTime.equal r.EndTime then
          l.set i { r with EndTime := r.EndTime.addSec (-3600) }
        else l
    else if 2 ≤ i then
      match l[i - 2]? with
      | none => l
      | some p =>
        if (p.EndTime.addSec 3600).offset ≠ r.EndTime.offset then
          l.set i { r with EndTime := p.EndTime.addSec 3600 }
        else l
    else l

/-- The in-place index loop of `fixTimezone` over the reads. -/
def fixTimezoneReads (reads : List Read) : List Read :=
  (List.range reads.length).foldl fixStep reads

/-- `fixTimezone`: repairs only the `Reads` timestamps of the result. -/
def fixTimezone (res : Result) : Result := { res with Reads := fixTimezoneReads res.Reads }

/-! ### The segmenter (`splitTimes`, lines 171–205) -/

/-- The `splitTimes` loop.  `segs ++ [cur]` is the Go slice `rr`, with
`idx` pointing at `cur`; `last` is `lastTs` (`none` for the zero
`time.Time`). -/
def splitGo (segs : List (List Read)) (cur : List Read) (last : Option GoTime) :
    List Read → Except HdfError (List (List Read))
  | [] => .ok (segs ++ [cur])
  | r :: rest =>
    match isHalfSharp r.EndTime with
    | some e => .error e
    | none =>
      match last with
      | none => splitGo segs (cur ++ [r]) (some r.EndTime) rest
      | some lt =>
        let m := r.EndTime.sub lt
        if m = thirtyMinutes then splitGo segs (cur ++ [r]) (some r.EndTime) rest
        else if m ≤ 0 then .error (.notSorted lt r.EndTime)
        else splitGo (segs ++ [cur]) [r] (some r.EndTime) rest

/-- `splitTimes`: splits the result into blocks with half-hour
increments; each block is a shallow copy of the result carrying its
own reads. -/
def splitTimes (res : Result) : Except HdfError (List Result) :=
  (splitGo [] [] none res.Reads).map (List.map fun l => { res with Reads := l })

/-! ### `HDF` (lines 67–118) -/

/-- The data-row loop of `HDF`, starting at 1-based row `i`: field
count (enforced by `csv.Reader` once the header fixed
`FieldsPerRecord` to 5), `parseLine`, the identity checks, then
accumulation. -/
def hdfLoop (i : Nat) (res : Result) : List (List String) → Except HdfError Result
  | [] => .ok res
  | record :: rest =>
    if record.length ≠ 5 then .error (.fieldCount i record.length)
    else
      match parseLine i record with
      | .error e => .error e
      | .ok l =>
        if i = 1 then
          hdfLoop (i + 1)
            { MPRN := l.MPRN, MeterSerialNumber := l.SerialNumber,
              ReadTypes := wantReadType,
              Reads := res.Reads ++ [⟨l.Value, l.EndTime⟩] } rest
        else if res.MPRN ≠ l.MPRN then .error (.multipleMPRN res.MPRN l.MPRN)
        else if res.MeterSerialNumber ≠ l.SerialNumber then
          .error (.multipleSerial res.MeterSerialNumber l.SerialNumber)
        else hdfLoop (i + 1) { res with Reads := res.Reads ++ [⟨l.Value, l.EndTime⟩] } rest

/-- `HDF` over the record list the CSV reader yields: header
validation, the row loop, reversal into ascending order, the timezone
repair, then segmentation. -/
def HDF (records : List (List String)) : Except HdfError (List Result) :=
  match records with
  | [] => .error .headerRead
  | h :: data =>
    match validateHeader h with
    | some e => .error e
    | none =>
      match hdfLoop 1 ⟨"", "", "", []⟩ data with
      | .error e => .error e
      | .ok res => splitTimes (fixTimezone { res with Reads := res.Reads.reverse })

/-! ### The aggregator (`Translate`, lines 260–323) -/

/-- The aggregator's error values. -/
inductive TransError where
  | notEnoughData
  | badSpacing (i : Nat)
  deriving DecidableEq, Repr

/-- One Home Assistant statistic value (`ha.StatisticValue`, as used by
`Translate`). -/
structure StatisticValue where
  start : GoTime
  state : ℚ
  sum : ℚ
  deriving DecidableEq, Repr

/-- The outcome of `Translate`: a statistics list, a returned error, or
the Go runtime panic (index out of range). -/
inductive TranslateResult where
  | ok (stats : List StatisticValue)
  | err (e : TransError)
  | crash
  deriving DecidableEq, Repr

/-- The `for i, r := range reads` loop of `Translate`: spacing
re-validation against `tsValidator`, the half-hour accumulator
`value`, and emission with `Start = reads[i-1].EndTime` whenever
`i%2 == 0 && i > 0`.  `prev` carries `reads[i-1]`; its `getD` default
is never consulted, since emission requires `i > 0`. -/
def transGo (i : Nat) (tsValidator : GoTime) (value sum : ℚ) (prev : Option Read)
    (acc : List StatisticValue) : List Read → Except TransError (List StatisticValue)
  | [] => .ok acc
  | r :: rest =>
    if r.EndTime.sub tsValidator ≠ thirtyMinutes then .error (.badSpacing i)
    else if i % 2 = 0 ∧ 0 < i then
      transGo (i + 1) r.EndTime 0 (sum + (value + r.Value / 2)) (some r)
        (acc ++ [⟨(prev.getD r).EndTime, value + r.Value / 2, sum + (value + r.Value / 2)⟩]) rest
    else transGo (i + 1) r.EndTime (value + r.Value / 2) sum (some r) acc rest

/-- `Translate`: empty-segment rejection, the leading on-the-hour trim
(`reads = reads[1:]`), then the aggregation loop seeded with
`tsValidator = reads[0].EndTime.Add(-30 * time.Minute)`.  When the trim
empties the slice, `reads[0]` is an out-of-range index: `crash`. -/
def Translate (raw : Result) : TranslateResult :=
  if raw.Reads.isEmpty then .err .notEnoughData
  else
    match trimmed raw.Reads with
    | [] => .crash
    | first :: rest =>
      match transGo 0 (first.EndTime.addSec (-1800)) 0 0 none [] (first :: rest) with
      | .ok stats => .ok stats
      | .error e => .err e

end parse

/-! ## The older disambiguator revision (`src/parse/parse.go` lines
236–268).  This revision assumed the naive resolver assigns the
daylight-saving (IST) offset to ambiguous times, so it inspects IST
readings, preferring the two-earlier neighbor check. -/

namespace parseV1

/-- One iteration of the older `fixTimezone` loop at index `i`: skip
non-IST readings; if an entry two positions earlier exists and equals
this instant, shift this reading one hour forward; failing that (only
when no two-earlier entry exists), if an entry two positions later
exists and sits exactly one hour after the shifted instant, adopt the
shift. -/
def fixStep (l : List Read) (i : Nat) : List Read :=
  match l[i]? with
  | none => l
  | some r =>
    if r.EndTime.zoneName ≠ "IST" then l
    else if 2 ≤ i then
      match l[i - 2]? with
      | none => l
      | some p =>
        if p.EndTime.equal r.EndTime then
          l.set i { r with EndTime := r.EndTime.addSec 3600 }
        else l
    else if i + 2 < l.length then
      match l[i + 2]? with
      | none => l
      | some q =>
        if q.EndTime.sub (r.EndTime.addSec 3600) = oneHour then
          l.set i { r with EndTime := r.EndTime.addSec 3600 }
        else l
    else l

/-- The in-place index loop of the older `fixTimezone`. -/
def fixTimezoneReads (reads : List Read) : List Read :=
  (List.range reads.length).foldl fixStep reads

end parseV1

/-! ## Specification-side definitions used to state the claims -/

instance {e a : Type} [DecidableEq e] [DecidableEq a] : DecidableEq (Except e a)
  | .ok x, .ok y =>
    if h : x = y then .isTrue (by rw [h]) else .isFalse (by intro hh; cases hh; exact h rfl)
  | .ok _, .error _ => .isFalse (by intro h; cases h)
  | .error _, .ok _ => .isFalse (by intro h; cases h)
  | .error x, .error y =>
    if h : x = y then .isTrue (by rw [h]) else .isFalse (by intro hh; cases hh; exact h rfl)

/-- After the first emission the aggregator's buckets pair the readings
two by two: each bucket starts at the first reading's instant and its
state is half the sum of the two values (each reading contributes
`value × 0.5` kWh). -/
def pairBuckets : List Read → List (GoTime × ℚ)
  | a :: b :: rest => (a.EndTime, a.Value / 2 + b.Value / 2) :: pairBuckets rest
  | _ => []

/-- The emission schedule of the aggregator on the trimmed reads:
the first emitted bucket, triggered while consuming the index-2
reading, folds the three leading readings and starts at the index-1
reading's instant; every later bucket pairs two readings.  Fewer than
three readings emit nothing. -/
def buckets : List Read → List (GoTime × ℚ)
  | r0 :: r1 :: r2 :: rest =>
    (r1.EndTime, r0.Value / 2 + r1.Value / 2 + r2.Value / 2) :: pairBuckets rest
  | _ => []

/-- Attach the per-segment running `sum` to a bucket list, starting
from `acc`. -/
def withSums (acc : ℚ) : List (GoTime × ℚ) → List parse.StatisticValue
  | [] => []
  | (t, v) :: rest => ⟨t, v, acc + v⟩ :: withSums (acc + v) rest

/-- The running totals of a list of values, starting from `acc`. -/
def runningTotals (acc : ℚ) : List ℚ → List ℚ
  | [] => []
  | x :: xs => (acc + x) :: runningTotals (acc + x) xs

/-- The disambiguation pass as the claim-C1 sentence reads, as a
function of the naively-zoned input list: for each reading at the
daylight-saving offset, if the reading two positions earlier has an
identical (naive) value the reading moves one hour forward; OTHERWISE
(also when a two-earlier reading exists but differs) the two-later
rule applies.  `parseV1.fixTimezoneReads` instead selects the earlier
branch by mere existence of the two-earlier entry. -/
def disambigChainSpec (reads : List Read) : List Read :=
  reads.mapIdx fun i r =>
    if r.EndTime.zoneName ≠ "IST" then r
    else if 2 ≤ i ∧ (match reads[i - 2]? with
        | some p => p.EndTime.equal r.EndTime
        | none => false) = true then
      { r with EndTime := r.EndTime.addSec 3600 }
    else
      match reads[i + 2]? with
      | some q =>
        if q.EndTime.sub (r.EndTime.addSec 3600) = oneHour then
          { r with EndTime := r.EndTime.addSec 3600 }
        else r
      | none => r

/-- The claim's misalignment condition on an instant: a clock minute
other than 0 or 30, or a nonzero seconds or sub-second component. -/
def misaligned (ts : GoTime) : Prop :=
  ts.second ≠ 0 ∨ ts.nsec ≠ 0 ∨ (ts.minute ≠ 0 ∧ ts.minute ≠ 30)

instance (ts : GoTime) : Decidable (misaligned ts) := by
  unfold misaligned
  infer_instance

/-- The first `k` iterations of an index-driven in-place repair loop:
`pfold step l k` is the list after processing indices `0 … k-1`. -/
def pfold (step : List Read → Nat → List Read) (l : List Read) (k : Nat) : List Read :=
  (List.range k).foldl step l

/-- Every reading's instant passes the half-hour alignment check. -/
def allAligned (reads : List Read) : Prop :=
  ∀ r ∈ reads, parse.isHalfSharp r.EndTime = none

instance (reads : List Read) : Decidable (allAligned reads) := by
  unfold allAligned
  infer_instance

/-- The instants ascend strictly, pairwise, optionally seeded by a
previous instant `last`. -/
def chainPos (last : Option GoTime) (reads : List Read) : Prop :=
  List.Chain' (fun a b => 0 < b.sub a) (last.toList ++ reads.map Read.EndTime)

/-- Consecutive instants inside one segment differ by exactly 30
minutes. -/
def chain30 (reads : List Read) : Prop :=
  List.Chain' (fun a b => b.sub a = thirtyMinutes) (reads.map Read.EndTime)

/-- The 30-minute chain seeded by the validator instant `tsv`: the
first reading sits exactly 30 minutes after `tsv` and each later
reading 30 minutes after its predecessor. -/
def chainFrom (tsv : GoTime) (reads : List Read) : Prop :=
  List.Chain (fun a b => b.sub a = thirtyMinutes) tsv (reads.map Read.EndTime)

/-- The boundary between two adjacent segments: the first reading of
the second sits after the last reading of the first, but not by 30
minutes (so neither segment could absorb the other's edge: segments
are maximal and never overlap). -/
def gapOk (s t : List Read) : Prop :=
  match s.getLast?, t.head? with
  | some a, some b =>
    0 < b.EndTime.sub a.EndTime ∧ b.EndTime.sub a.EndTime ≠ thirtyMinutes
  | _, _ => True

/-- The grouping the segmenter's walk performs, as a pure function on
the reading list (used to state what `splitGo` returns when it does
not fail): a 30-minute delta extends the current segment, any other
delta starts a new segment at the current reading. -/
def splitSpec (cur : List Read) (last : Option GoTime) : List Read → List (List Read)
  | [] => [cur]
  | r :: rest =>
    match last with
    | none => splitSpec (cur ++ [r]) (some r.EndTime) rest
    | some lt =>
      if r.EndTime.sub lt = thirtyMinutes then splitSpec (cur ++ [r]) (some r.EndTime) rest
      else cur :: splitSpec [r] (some r.EndTime) rest

/-! ## Concrete inputs used by counterexamples and witnesses -/

/-- A well-formed data row with the expected read type. -/
def mkRow (m s v t : String) : List String := [m, s, v, wantReadType, t]

/-- The claim-C2 input file: data rows at local 01:00, 00:30, 00:00,
00:30 (newest first) on the autumn transition day. -/
def c2Records : List (List String) :=
  [headerFormat,
   mkRow "123" "45" "0.1" "29-10-2023 01:00",
   mkRow "123" "45" "0.1" "29-10-2023 00:30",
   mkRow "123" "45" "0.1" "29-10-2023 00:00",
   mkRow "123" "45" "0.1" "29-10-2023 00:30"]

/-- The output claim C2 predicts for `c2Records`: one segment holding
00:30 IST (23:30 UTC), 00:00 GMT, 00:30 GMT and 01:00 GMT; instants in
seconds since the model epoch. -/
def c2Claimed : Result :=
  { MPRN := "123", MeterSerialNumber := "45", ReadTypes := wantReadType,
    Reads := [⟨1/10, ⟨26004600, 0⟩⟩, ⟨1/10, ⟨26006400, 0⟩⟩,
              ⟨1/10, ⟨26008200, 0⟩⟩, ⟨1/10, ⟨26010000, 0⟩⟩] }

/-- An ascending, naively-zoned reading list distinguishing the older
disambiguator from the claim-C1 sentence: the naive instants of the
wall clocks 23:30 (Oct 28), 00:00, 00:30, 00:40 and 01:30 around the
2023 autumn transition — all but the last resolved to IST. -/
def c1List : List Read :=
  [⟨1, ⟨26001000, 0⟩⟩, ⟨1, ⟨26002800, 0⟩⟩, ⟨1, ⟨26004600, 0⟩⟩,
   ⟨1, ⟨26005200, 0⟩⟩, ⟨1, ⟨26011800, 0⟩⟩]


/-- A segmenter witness input: three aligned readings, the last
separated by a 90-minute gap. -/
def c5wRes : Result :=
  { MPRN := "m", MeterSerialNumber := "s", ReadTypes := wantReadType,
    Reads := [⟨1, ⟨1800, 0⟩⟩, ⟨1, ⟨3600, 0⟩⟩, ⟨1, ⟨9000, 0⟩⟩] }

/-- A series whose ordering violation precedes its misaligned reading:
02:00, then 01:30 (delta −30 minutes), then 02:33 (minute 33). -/
def c8Res : Result :=
  { MPRN := "m", MeterSerialNumber := "s", ReadTypes := wantReadType,
    Reads := [⟨1, ⟨7200, 0⟩⟩, ⟨1, ⟨5400, 0⟩⟩, ⟨1, ⟨9180, 0⟩⟩] }

/-- A computable decision procedure for the 30-minute chain (the
library instance for `Chain'` is built with tactics and does not
evaluate). -/
def decidableChain30 :
    ∀ l : List GoTime, Decidable (List.Chain' (fun a b : GoTime => b.sub a = thirtyMinutes) l)
  | [] => .isTrue List.chain'_nil
  | [a] => .isTrue (List.chain'_singleton a)
  | _a :: b :: l =>
    haveI : Decidable (List.Chain' (fun a b : GoTime => b.sub a = thirtyMinutes) (b :: l)) :=
      decidableChain30 (b :: l)
    decidable_of_iff _ List.chain'_cons.symm

instance (reads : List Read) : Decidable (chain30 reads) :=
  decidableChain30 (reads.map Read.EndTime)

def c3Res : Result :=
  { MPRN := "m", MeterSerialNumber := "s", ReadTypes := wantReadType,
    Reads := [⟨1, ⟨1800, 0⟩⟩, ⟨2, ⟨3600, 0⟩⟩] }

def c3wRes : Result :=
  { MPRN := "m", MeterSerialNumber := "s", ReadTypes := wantReadType,
    Reads := [⟨1, ⟨1800, 0⟩⟩, ⟨2, ⟨3600, 0⟩⟩, ⟨3, ⟨5400, 0⟩⟩, ⟨4, ⟨7200, 0⟩⟩, ⟨5, ⟨9000, 0⟩⟩] }

def c6wRes : Result :=
  { MPRN := "m", MeterSerialNumber := "s", ReadTypes := wantReadType,
    Reads := [⟨2, ⟨12600, 0⟩⟩, ⟨4, ⟨14400, 0⟩⟩, ⟨6, ⟨16200, 0⟩⟩] }


/-! ### Rows and inputs for the ingestor-identity claim -/

/-- Whether a data row passes the CSV field count and `parseLine`
(success of `parseLine` does not depend on the row number, which only
decorates errors). -/
def parsesRow (r : List String) : Bool :=
  r.length == 5 &&
    (match parse.parseLine 1 r with
     | .ok _ => true
     | .error _ => false)

instance : Inhabited Result := ⟨⟨"", "", "", []⟩⟩

/-- The first data row used to witness the identity propagation. -/
def c7rowA : List String := mkRow "10001" "MS01" "7" "01-01-2023 00:30"

/-- A later data row with a different MPRN. -/
def c7rowBad : List String := mkRow "99999" "MS01" "7" "01-01-2023 00:00"

/-- The segments produced for a one-row file carrying `c7rowA`. -/
def c7out : List Result :=
  match parse.HDF (headerFormat :: c7rowA :: []) with
  | .ok o => o
  | .error _ => []

/-! ## Lemmas on the in-place index loops -/

theorem set_of_getElem? {α : Type} {m : List α} {i : Nat} {x : α}
    (h : m[i]? = some x) : m.set i x = m := by
  apply List.ext_getElem?
  intro j
  rcases eq_or_ne i j with rfl | hne
  · obtain ⟨hlt, hx⟩ := List.getElem?_eq_some.mp h
    rw [List.getElem?_set_self hlt, h]
  · rw [List.getElem?_set_ne hne]

theorem pfold_succ (step : List Read → Nat → List Read) (l : List Read) (k : Nat) :
    pfold step l (k + 1) = step (pfold step l k) k := by
  simp [pfold, List.range_succ]

theorem pfold_getElem?_of_le (step : List Read → Nat → List Read)
    (hmod : ∀ l i j, j ≠ i → (step l i)[j]? = l[j]?) (l : List Read) :
    ∀ k j, k ≤ j → (pfold step l k)[j]? = l[j]? := by
  intro k
  induction k with
  | zero => intro j _; rfl
  | succ k ih =>
    intro j hj
    rw [pfold_succ, hmod _ _ _ (by omega), ih j (by omega)]

theorem pfold_stable (step : List Read → Nat → List Read)
    (hmod : ∀ l i j, j ≠ i → (step l i)[j]? = l[j]?) (l : List Read) :
    ∀ k j, j < k → (pfold step l k)[j]? = (pfold step l (j + 1))[j]? := by
  intro k
  induction k with
  | zero => intro j hj; omega
  | succ k ih =>
    intro j hj
    rcases Nat.lt_succ_iff_lt_or_eq.mp hj with h | h
    · rw [pfold_succ, hmod _ _ _ (by omega), ih j h]
    · rw [h]

theorem pfold_length (step : List Read → Nat → List Read)
    (hlen : ∀ l i, (step l i).length = l.length) (l : List Read) :
    ∀ k, (pfold step l k).length = l.length := by
  intro k
  induction k with
  | zero => rfl
  | succ k ih => rw [pfold_succ, hlen, ih]

theorem parseV1.fixStep_getElem?_ne (l : List Read) (i j : Nat) (h : j ≠ i) :
    (parseV1.fixStep l i)[j]? = l[j]? := by
  unfold parseV1.fixStep
  cases l[i]? with
  | none => rfl
  | some r =>
    repeat' split
    all_goals first
      | rfl
      | exact List.getElem?_set_ne (Ne.symm h)

theorem parseV1.fixStep_length (l : List Read) (i : Nat) :
    (parseV1.fixStep l i).length = l.length := by
  unfold parseV1.fixStep
  cases l[i]? with
  | none => rfl
  | some r =>
    repeat' split
    all_goals simp [List.length_set]

/-- What one iteration of the older loop does at its own index, in
terms of the list it sees. -/
theorem parseV1.fixStep_getElem?_self (l : List Read) (i : Nat) :
    (parseV1.fixStep l i)[i]? = (l[i]?).map (fun r =>
      if r.EndTime.zoneName ≠ "IST" then r
      else if 2 ≤ i then
        match l[i - 2]? with
        | some p =>
          if p.EndTime.equal r.EndTime then { r with EndTime := r.EndTime.addSec 3600 } else r
        | none => r
      else if i + 2 < l.length then
        match l[i + 2]? with
        | some q =>
          if q.EndTime.sub (r.EndTime.addSec 3600) = oneHour then
            { r with EndTime := r.EndTime.addSec 3600 }
          else r
        | none => r
      else r) := by
  unfold parseV1.fixStep
  cases hl : l[i]? with
  | none => simpa using hl
  | some r =>
    have hlt : i < l.length := (List.getElem?_eq_some.mp hl).1
    simp only [Option.map_some']
    repeat' split
    all_goals first
      | exact List.getElem?_set_self hlt
      | exact hl
      | simp_all

theorem map_value_set_self (l : List Read) (i : Nat) (r : Read) (h : l[i]? = some r) :
    (List.map Read.Value l).set i r.Value = List.map Read.Value l :=
  set_of_getElem? (by rw [List.getElem?_map, h]; rfl)

theorem parse.fixStep_map_value (l : List Read) (i : Nat) :
    (parse.fixStep l i).map Read.Value = l.map Read.Value := by
  unfold parse.fixStep
  repeat' split
  all_goals first
    | rfl
    | simp_all [List.map_set, map_value_set_self]

theorem foldl_fixStep_map_value (idxs : List Nat) (l : List Read) :
    (idxs.foldl parse.fixStep l).map Read.Value = l.map Read.Value := by
  induction idxs generalizing l with
  | nil => rfl
  | cons i is ih => rw [List.foldl_cons, ih, parse.fixStep_map_value]

/-! ## Segmenter lemmas -/

theorem parse.splitGo_nil (segs : List (List Read)) (cur : List Read) (last : Option GoTime) :
    parse.splitGo segs cur last [] = .ok (segs ++ [cur]) := rfl

theorem parse.splitGo_cons (segs : List (List Read)) (cur : List Read) (last : Option GoTime)
    (r : Read) (rest : List Read) :
    parse.splitGo segs cur last (r :: rest) =
      match parse.isHalfSharp r.EndTime with
      | some e => .error e
      | none =>
        match last with
        | none => parse.splitGo segs (cur ++ [r]) (some r.EndTime) rest
        | some lt =>
          if r.EndTime.sub lt = thirtyMinutes then
            parse.splitGo segs (cur ++ [r]) (some r.EndTime) rest
          else if r.EndTime.sub lt ≤ 0 then .error (.notSorted lt r.EndTime)
          else parse.splitGo (segs ++ [cur]) [r] (some r.EndTime) rest := rfl

theorem parse.splitGo_err (segs : List (List Read)) (cur : List Read) (last : Option GoTime)
    (r : Read) (rest : List Read) (e : HdfError) (h : parse.isHalfSharp r.EndTime = some e) :
    parse.splitGo segs cur last (r :: rest) = .error e := by
  rw [parse.splitGo_cons, h]

theorem parse.splitGo_first (segs : List (List Read)) (cur : List Read) (r : Read)
    (rest : List Read) (h : parse.isHalfSharp r.EndTime = none) :
    parse.splitGo segs cur none (r :: rest) =
      parse.splitGo segs (cur ++ [r]) (some r.EndTime) rest := by
  rw [parse.splitGo_cons, h]

theorem parse.splitGo_step30 (segs : List (List Read)) (cur : List Read) (lt : GoTime)
    (r : Read) (rest : List Read) (h : parse.isHalfSharp r.EndTime = none)
    (h30 : r.EndTime.sub lt = thirtyMinutes) :
    parse.splitGo segs cur (some lt) (r :: rest) =
      parse.splitGo segs (cur ++ [r]) (some r.EndTime) rest := by
  rw [parse.splitGo_cons, h]
  simp [h30]

theorem parse.splitGo_notSorted (segs : List (List Read)) (cur : List Read) (lt : GoTime)
    (r : Read) (rest : List Read) (h : parse.isHalfSharp r.EndTime = none)
    (h30 : ¬ r.EndTime.sub lt = thirtyMinutes) (hle : r.EndTime.sub lt ≤ 0) :
    parse.splitGo segs cur (some lt) (r :: rest) = .error (.notSorted lt r.EndTime) := by
  rw [parse.splitGo_cons, h]
  simp [h30, hle]

theorem parse.splitGo_gap (segs : List (List Read)) (cur : List Read) (lt : GoTime)
    (r : Read) (rest : List Read) (h : parse.isHalfSharp r.EndTime = none)
    (h30 : ¬ r.EndTime.sub lt = thirtyMinutes) (hpos : ¬ r.EndTime.sub lt ≤ 0) :
    parse.splitGo segs cur (some lt) (r :: rest) =
      parse.splitGo (segs ++ [cur]) [r] (some r.EndTime) rest := by
  rw [parse.splitGo_cons, h]
  simp [h30, hpos]

theorem splitGo_ok (reads : List Read) : ∀ segs cur last,
    allAligned reads → chainPos last reads →
    parse.splitGo segs cur last reads = .ok (segs ++ splitSpec cur last reads) := by
  induction reads with
  | nil => intro segs cur last _ _; rfl
  | cons r rest ih =>
    intro segs cur last hal hpos
    have hr : parse.isHalfSharp r.EndTime = none := hal r (by simp)
    have hal' : allAligned rest := fun x hx => hal x (by simp [hx])
    cases last with
    | none =>
      have hpos' : chainPos (some r.EndTime) rest := hpos
      rw [parse.splitGo_first _ _ _ _ hr, ih _ _ _ hal' hpos']
      rfl
    | some lt =>
      rcases List.chain'_cons.mp hpos with ⟨hlt, htail⟩
      have htail' : chainPos (some r.EndTime) rest := htail
      by_cases h30 : r.EndTime.sub lt = thirtyMinutes
      · rw [parse.splitGo_step30 _ _ _ _ _ hr h30, ih _ _ _ hal' htail']
        simp [splitSpec, h30]
      · rw [parse.splitGo_gap _ _ _ _ _ hr h30 (by omega), ih _ _ _ hal' htail']
        simp [splitSpec, h30, List.append_assoc]



theorem chainPos_nil (last : Option GoTime) : chainPos last [] := by
  cases last <;> simp [chainPos]

theorem splitGo_err_of_not_chainPos (reads : List Read) : ∀ segs cur last,
    allAligned reads → ¬ chainPos last reads →
    ∃ lt ct, parse.splitGo segs cur last reads = .error (.notSorted lt ct) := by
  induction reads with
  | nil => intro segs cur last _ hbad; exact absurd (chainPos_nil last) hbad
  | cons r rest ih =>
    intro segs cur last hal hbad
    have hr : parse.isHalfSharp r.EndTime = none := hal r (by simp)
    have hal' : allAligned rest := fun x hx => hal x (by simp [hx])
    cases last with
    | none =>
      have hbad' : ¬ chainPos (some r.EndTime) rest := hbad
      obtain ⟨lt, ct, h⟩ := ih segs (cur ++ [r]) _ hal' hbad'
      exact ⟨lt, ct, by rw [parse.splitGo_first _ _ _ _ hr]; exact h⟩
    | some lt0 =>
      by_cases h30 : r.EndTime.sub lt0 = thirtyMinutes
      · have hbad' : ¬ chainPos (some r.EndTime) rest := fun hc =>
          hbad (List.chain'_cons.mpr ⟨by rw [h30]; decide, hc⟩)
        obtain ⟨lt, ct, h⟩ := ih segs (cur ++ [r]) _ hal' hbad'
        exact ⟨lt, ct, by rw [parse.splitGo_step30 _ _ _ _ _ hr h30]; exact h⟩
      · by_cases hle : r.EndTime.sub lt0 ≤ 0
        · exact ⟨lt0, r.EndTime, parse.splitGo_notSorted _ _ _ _ _ hr h30 hle⟩
        · have hbad' : ¬ chainPos (some r.EndTime) rest := fun hc =>
            hbad (List.chain'_cons.mpr ⟨by omega, hc⟩)
          obtain ⟨lt, ct, h⟩ := ih (segs ++ [cur]) [r] _ hal' hbad'
          exact ⟨lt, ct, by rw [parse.splitGo_gap _ _ _ _ _ hr h30 hle]; exact h⟩

theorem splitSpec_flatten (reads : List Read) : ∀ (cur : List Read) (last : Option GoTime),
    (splitSpec cur last reads).flatten = cur ++ reads := by
  induction reads with
  | nil => intro cur last; simp [splitSpec]
  | cons r rest ih =>
    intro cur last
    cases last with
    | none => simp [splitSpec, ih]
    | some lt =>
      by_cases h30 : r.EndTime.sub lt = thirtyMinutes
      · simp [splitSpec, h30, ih]
      · simp [splitSpec, h30, ih]

theorem splitSpec_ne_nil (reads : List Read) : ∀ (cur : List Read) (last : Option GoTime),
    splitSpec cur last reads ≠ [] := by
  induction reads with
  | nil => intro cur last; simp [splitSpec]
  | cons r rest ih =>
    intro cur last
    cases last with
    | none => simpa [splitSpec] using ih (cur ++ [r]) (some r.EndTime)
    | some lt =>
      by_cases h30 : r.EndTime.sub lt = thirtyMinutes
      · simpa [splitSpec, h30] using ih (cur ++ [r]) (some r.EndTime)
      · simp [splitSpec, h30]



theorem splitSpec_head (reads : List Read) : ∀ (cur : List Read) (last : Option GoTime),
    last = cur.getLast?.map Read.EndTime →
    (splitSpec cur last reads).head?.bind List.head? = (cur ++ reads).head? := by
  induction reads with
  | nil => intro cur last _; simp [splitSpec]
  | cons r rest ih =>
    intro cur last hinv
    cases last with
    | none =>
      have hcur : cur = [] := by
        cases hc : cur.getLast? with
        | none => exact List.getLast?_eq_none_iff.mp hc
        | some a => rw [hc] at hinv; simp at hinv
      subst hcur
      rw [splitSpec, ih ([] ++ [r]) (some r.EndTime) (by simp)]
      simp
    | some lt =>
      have hcur : cur ≠ [] := by
        intro h
        subst h
        simp at hinv
      by_cases h30 : r.EndTime.sub lt = thirtyMinutes
      · rw [splitSpec]
        simp only [h30, if_pos]
        rw [ih (cur ++ [r]) (some r.EndTime) (by simp [List.getLast?_concat])]
        simp [List.append_assoc]
      · rw [splitSpec]
        simp only [h30, if_neg, ite_false]
        cases cur with
        | nil => exact absurd rfl hcur
        | cons c cs => simp
  
theorem chain30_snoc (cur : List Read) (lt : GoTime) (r : Read)
    (hc : chain30 cur) (hlast : cur.getLast?.map Read.EndTime = some lt)
    (h30 : r.EndTime.sub lt = thirtyMinutes) : chain30 (cur ++ [r]) := by
  unfold chain30 at *
  rw [List.map_append]
  refine List.chain'_append.mpr ⟨hc, List.chain'_singleton _, ?_⟩
  intro x hx y hy
  rw [List.getLast?_map] at hx
  simp only [hlast, Option.mem_some_iff] at hx
  simp only [List.map_cons, List.map_nil, List.head?_cons, Option.mem_some_iff] at hy
  subst hx
  subst hy
  exact h30

theorem splitSpec_chain30 (reads : List Read) : ∀ (cur : List Read) (last : Option GoTime),
    last = cur.getLast?.map Read.EndTime → chain30 cur → chainPos last reads →
    ∀ s ∈ splitSpec cur last reads, chain30 s := by
  induction reads with
  | nil =>
    intro cur last _ hc _ s hs
    simp [splitSpec] at hs
    exact hs ▸ hc
  | cons r rest ih =>
    intro cur last hinv hc hpos s hs
    cases last with
    | none =>
      have hcur : cur = [] := by
        cases hch : cur.getLast? with
        | none => exact List.getLast?_eq_none_iff.mp hch
        | some a => rw [hch] at hinv; simp at hinv
      subst hcur
      rw [splitSpec] at hs
      exact ih ([] ++ [r]) (some r.EndTime) (by simp) (by simp [chain30]) hpos s hs
    | some lt =>
      by_cases h30 : r.EndTime.sub lt = thirtyMinutes
      · rw [splitSpec] at hs
        simp only [h30, if_pos] at hs
        rcases List.chain'_cons.mp hpos with ⟨_, htail⟩
        exact ih (cur ++ [r]) (some r.EndTime) (by simp [List.getLast?_concat])
          (chain30_snoc cur lt r hc hinv.symm h30) htail s hs
      · rw [splitSpec] at hs
        simp only [h30, if_neg, ite_false] at hs
        rcases List.mem_cons.mp hs with h | h
        · exact h ▸ hc
        · rcases List.chain'_cons.mp hpos with ⟨_, htail⟩
          exact ih [r] (some r.EndTime) (by simp) (by simp [chain30]) htail s h



theorem splitSpec_all_ne_nil (reads : List Read) : ∀ (cur : List Read) (last : Option GoTime),
    cur ≠ [] → ∀ s ∈ splitSpec cur last reads, s ≠ [] := by
  induction reads with
  | nil =>
    intro cur last hcur s hs
    simp [splitSpec] at hs
    exact hs ▸ hcur
  | cons r rest ih =>
    intro cur last hcur s hs
    cases last with
    | none =>
      rw [splitSpec] at hs
      exact ih (cur ++ [r]) (some r.EndTime) (by simp) s hs
    | some lt =>
      by_cases h30 : r.EndTime.sub lt = thirtyMinutes
      · rw [splitSpec] at hs
        simp only [h30, if_pos] at hs
        exact ih (cur ++ [r]) (some r.EndTime) (by simp) s hs
      · rw [splitSpec] at hs
        simp only [h30, if_neg, ite_false] at hs
        rcases List.mem_cons.mp hs with h | h
        · exact h ▸ hcur
        · exact ih [r] (some r.EndTime) (by simp) s h

theorem splitSpec_gapChain (reads : List Read) : ∀ (cur : List Read) (last : Option GoTime),
    last = cur.getLast?.map Read.EndTime → chainPos last reads →
    List.Chain' gapOk (splitSpec cur last reads) := by
  induction reads with
  | nil => intro cur last _ _; simp [splitSpec]
  | cons r rest ih =>
    intro cur last hinv hpos
    cases last with
    | none =>
      have hcur : cur = [] := by
        cases hch : cur.getLast? with
        | none => exact List.getLast?_eq_none_iff.mp hch
        | some a => rw [hch] at hinv; simp at hinv
      subst hcur
      rw [splitSpec]
      exact ih ([] ++ [r]) (some r.EndTime) (by simp) hpos
    | some lt =>
      rcases List.chain'_cons.mp hpos with ⟨hlt, htail⟩
      by_cases h30 : r.EndTime.sub lt = thirtyMinutes
      · rw [splitSpec]
        simp only [h30, if_pos]
        exact ih (cur ++ [r]) (some r.EndTime) (by simp [List.getLast?_concat]) htail
      · rw [splitSpec]
        simp only [h30, if_neg, ite_false]
        refine List.chain'_cons'.mpr ⟨?_, ih [r] (some r.EndTime) (by simp) htail⟩
        intro b hb
        have hhead : (splitSpec [r] (some r.EndTime) rest).head?.bind List.head? =
            ([r] ++ rest).head? := splitSpec_head rest [r] (some r.EndTime) (by simp)
        have hb' : (splitSpec [r] (some r.EndTime) rest).head? = some b := hb
        rw [hb'] at hhead
        simp only [Option.some_bind, List.cons_append, List.head?_cons] at hhead
        obtain ⟨a, ha, hae⟩ : ∃ a, cur.getLast? = some a ∧ a.EndTime = lt := by
          cases hc : cur.getLast? with
          | none => rw [hc] at hinv; simp at hinv
          | some a =>
            rw [hc] at hinv
            simp only [Option.map_some', Option.some_inj] at hinv
            exact ⟨a, rfl, hinv.symm⟩
        unfold gapOk
        rw [ha, hhead]
        show 0 < r.EndTime.sub a.EndTime ∧ r.EndTime.sub a.EndTime ≠ thirtyMinutes
        rw [hae]
        exact ⟨hlt, h30⟩



theorem isHalfSharp_eq_none_iff (ts : GoTime) : parse.isHalfSharp ts = none ↔ ¬ misaligned ts := by
  unfold parse.isHalfSharp misaligned
  split
  · simp_all
  · simp_all

theorem isHalfSharp_some (ts : GoTime) (e : HdfError) (h : parse.isHalfSharp ts = some e) :
    e = .notAligned ts := by
  unfold parse.isHalfSharp at h
  split at h
  · exact (Option.some_inj.mp h).symm
  · cases h


theorem chainPos_cons_iff (lt : GoTime) (q : Read) (p : List Read) :
    chainPos (some lt) (q :: p) ↔ 0 < q.EndTime.sub lt ∧ chainPos (some q.EndTime) p := by
  unfold chainPos
  exact List.chain'_cons

theorem misaligned_of_isHalfSharp_some (ts : GoTime) (e : HdfError)
    (h : parse.isHalfSharp ts = some e) : misaligned ts := by
  by_contra hmis
  rw [(isHalfSharp_eq_none_iff ts).mpr hmis] at h
  cases h

theorem rhsShift (q : Read) (rest : List Read) (last : Option GoTime)
    (hq : parse.isHalfSharp q.EndTime = none)
    (hlink : ∀ p, chainPos last (q :: p) ↔ chainPos (some q.EndTime) p) :
    ((∃ p r s, q :: rest = p ++ r :: s ∧ misaligned r.EndTime ∧
        (∀ x ∈ p, ¬ misaligned x.EndTime) ∧ chainPos last p) ↔
     (∃ p r s, rest = p ++ r :: s ∧ misaligned r.EndTime ∧
        (∀ x ∈ p, ¬ misaligned x.EndTime) ∧ chainPos (some q.EndTime) p)) := by
  constructor
  · rintro ⟨p, r, s, hsplit, hmis, halp, hcp⟩
    cases p with
    | nil =>
      simp only [List.nil_append] at hsplit
      obtain ⟨h1, h2⟩ := List.cons.inj hsplit
      exact absurd hmis (h1 ▸ (isHalfSharp_eq_none_iff q.EndTime).mp hq)
    | cons q' p' =>
      rw [List.cons_append] at hsplit
      obtain ⟨h1, h2⟩ := List.cons.inj hsplit
      refine ⟨p', r, s, h2, hmis, fun x hx => halp x (List.mem_cons_of_mem _ hx), ?_⟩
      rw [← h1] at hcp
      exact (hlink p').mp hcp
  · rintro ⟨p, r, s, hsplit, hmis, halp, hcp⟩
    refine ⟨q :: p, r, s, ?_, hmis, ?_, (hlink p).mpr hcp⟩
    · rw [List.cons_append, hsplit]
    · intro x hx
      rcases List.mem_cons.mp hx with rfl | hx'
      · exact (isHalfSharp_eq_none_iff x.EndTime).mp hq
      · exact halp x hx'

theorem splitGo_alignErr_iff (reads : List Read) : ∀ segs cur last,
    (∃ ts, parse.splitGo segs cur last reads = .error (.notAligned ts)) ↔
    (∃ p r s, reads = p ++ r :: s ∧ misaligned r.EndTime ∧
      (∀ x ∈ p, ¬ misaligned x.EndTime) ∧ chainPos last p) := by
  induction reads with
  | nil =>
    intro segs cur last
    constructor
    · rintro ⟨ts, h⟩
      rw [parse.splitGo_nil] at h
      cases h
    · rintro ⟨p, r, s, hps, _⟩
      exact absurd hps (by simp)
  | cons q rest ih =>
    intro segs cur last
    cases hq : parse.isHalfSharp q.EndTime with
    | some e =>
      refine iff_of_true ⟨q.EndTime, ?_⟩
        ⟨[], q, rest, rfl, misaligned_of_isHalfSharp_some q.EndTime e hq, by simp,
          chainPos_nil last⟩
      rw [parse.splitGo_err segs cur last q rest e hq, isHalfSharp_some q.EndTime e hq]
    | none =>
      cases last with
      | none =>
        have h1 : (∃ ts, parse.splitGo segs cur none (q :: rest) =
            .error (.notAligned ts)) ↔
            (∃ ts, parse.splitGo segs (cur ++ [q]) (some q.EndTime) rest =
              .error (.notAligned ts)) := by
          rw [parse.splitGo_first _ _ _ _ hq]
        exact h1.trans ((ih _ _ _).trans (rhsShift q rest none hq (fun p => Iff.rfl)).symm)
      | some lt =>
        by_cases h30 : q.EndTime.sub lt = thirtyMinutes
        · have h1 : (∃ ts, parse.splitGo segs cur (some lt) (q :: rest) =
              .error (.notAligned ts)) ↔
              (∃ ts, parse.splitGo segs (cur ++ [q]) (some q.EndTime) rest =
                .error (.notAligned ts)) := by
            rw [parse.splitGo_step30 _ _ _ _ _ hq h30]
          refine h1.trans ((ih _ _ _).trans (rhsShift q rest (some lt) hq (fun p => ?_)).symm)
          exact (chainPos_cons_iff lt q p).trans (and_iff_right (by rw [h30]; decide))
        · by_cases hle : q.EndTime.sub lt ≤ 0
          · refine iff_of_false ?_ ?_
            · rintro ⟨ts, h⟩
              rw [parse.splitGo_notSorted _ _ _ _ _ hq h30 hle] at h
              simp at h
            · rintro ⟨p, r, s, hsplit, hmis, halp, hcp⟩
              cases p with
              | nil =>
                simp only [List.nil_append] at hsplit
                obtain ⟨h1, h2⟩ := List.cons.inj hsplit
                exact absurd hmis (h1 ▸ (isHalfSharp_eq_none_iff q.EndTime).mp hq)
              | cons q' p' =>
                rw [List.cons_append] at hsplit
                obtain ⟨h1, h2⟩ := List.cons.inj hsplit
                rw [← h1] at hcp
                have := ((chainPos_cons_iff lt q p').mp hcp).1
                omega
          · have h1 : (∃ ts, parse.splitGo segs cur (some lt) (q :: rest) =
                .error (.notAligned ts)) ↔
                (∃ ts, parse.splitGo (segs ++ [cur]) [q] (some q.EndTime) rest =
                  .error (.notAligned ts)) := by
              rw [parse.splitGo_gap _ _ _ _ _ hq h30 hle]
            refine h1.trans ((ih _ _ _).trans (rhsShift q rest (some lt) hq (fun p => ?_)).symm)
            exact (chainPos_cons_iff lt q p).trans (and_iff_right (by omega))


/-! ## Aggregator lemmas -/


theorem parse.transGo_nil (i : Nat) (tsv : GoTime) (value sum : ℚ) (prev : Option Read)
    (acc : List parse.StatisticValue) : parse.transGo i tsv value sum prev acc [] = .ok acc := rfl

theorem parse.transGo_cons (i : Nat) (tsv : GoTime) (value sum : ℚ) (prev : Option Read)
    (acc : List parse.StatisticValue) (r : Read) (rest : List Read) :
    parse.transGo i tsv value sum prev acc (r :: rest) =
      if r.EndTime.sub tsv ≠ thirtyMinutes then .error (.badSpacing i)
      else if i % 2 = 0 ∧ 0 < i then
        parse.transGo (i + 1) r.EndTime 0 (sum + (value + r.Value / 2)) (some r)
          (acc ++ [⟨(prev.getD r).EndTime, value + r.Value / 2,
            sum + (value + r.Value / 2)⟩]) rest
      else parse.transGo (i + 1) r.EndTime (value + r.Value / 2) sum (some r) acc rest := rfl

theorem parse.Translate_def (raw : Result) :
    parse.Translate raw =
      if raw.Reads.isEmpty then .err .notEnoughData
      else
        match parse.trimmed raw.Reads with
        | [] => .crash
        | first :: rest =>
          match parse.transGo 0 (first.EndTime.addSec (-1800)) 0 0 none [] (first :: rest) with
          | .ok stats => .ok stats
          | .error e => .err e := rfl

theorem GoTime.sub_addSec_neg30 (t : GoTime) :
    t.sub (t.addSec (-1800)) = thirtyMinutes := by
  unfold GoTime.sub GoTime.addSec thirtyMinutes
  ring

theorem transGo_pairs : ∀ (rest : List Read) (k : Nat) (tsv : GoTime) (sum : ℚ)
    (prev : Read) (acc : List parse.StatisticValue),
    chainFrom tsv rest →
    parse.transGo (2 * k + 1) tsv 0 sum (some prev) acc rest =
      .ok (acc ++ withSums sum (pairBuckets rest))
  | [], _, _, sum, _, acc, _ => by
    rw [parse.transGo_nil]
    simp [pairBuckets, withSums]
  | [a], k, tsv, sum, prev, acc, h => by
    rcases List.chain_cons.mp h with ⟨h1, _⟩
    rw [parse.transGo_cons, if_neg (by simp [h1]), if_neg (by omega), parse.transGo_nil]
    simp [pairBuckets, withSums]
  | a :: b :: rest', k, tsv, sum, prev, acc, h => by
    rcases List.chain_cons.mp h with ⟨h1, hh⟩
    rcases List.chain_cons.mp hh with ⟨h2, h3⟩
    rw [parse.transGo_cons, if_neg (by simp [h1]), if_neg (by omega)]
    rw [parse.transGo_cons, if_neg (by simp [h2]), if_pos (by omega)]
    have hk : 2 * k + 1 + 1 + 1 = 2 * (k + 1) + 1 := by ring
    rw [hk, transGo_pairs rest' (k + 1) b.EndTime _ b _ h3]
    simp [pairBuckets, withSums, List.append_assoc]

theorem transGo_buckets : ∀ (reads : List Read) (tsv : GoTime), chainFrom tsv reads →
    parse.transGo 0 tsv 0 0 none [] reads = .ok (withSums 0 (buckets reads))
  | [], tsv, _ => by
    rw [parse.transGo_nil]
    simp [buckets, withSums]
  | [r0], tsv, h => by
    rcases List.chain_cons.mp h with ⟨h1, _⟩
    rw [parse.transGo_cons, if_neg (by simp [h1]), if_neg (by omega), parse.transGo_nil]
    simp [buckets, withSums]
  | [r0, r1], tsv, h => by
    rcases List.chain_cons.mp h with ⟨h1, hh⟩
    rcases List.chain_cons.mp hh with ⟨h2, _⟩
    rw [parse.transGo_cons, if_neg (by simp [h1]), if_neg (by omega)]
    rw [parse.transGo_cons, if_neg (by simp [h2]), if_neg (by omega)]
    rw [parse.transGo_nil]
    simp [buckets, withSums]
  | r0 :: r1 :: r2 :: rest, tsv, h => by
    rcases List.chain_cons.mp h with ⟨h1, hh⟩
    rcases List.chain_cons.mp hh with ⟨h2, hhh⟩
    rcases List.chain_cons.mp hhh with ⟨h3, h4⟩
    rw [parse.transGo_cons, if_neg (by simp [h1]), if_neg (by omega)]
    rw [parse.transGo_cons, if_neg (by simp [h2]), if_neg (by omega)]
    rw [parse.transGo_cons, if_neg (by simp [h3]), if_pos (by omega)]
    have hk : 0 + 1 + 1 + 1 = 2 * 1 + 1 := by ring
    rw [hk, transGo_pairs rest 1 r2.EndTime _ r2 _ h4]
    simp [buckets, withSums, pairBuckets]

theorem Translate_ok (raw : Result) (r0 : Read) (rest : List Read)
    (htrim : parse.trimmed raw.Reads = r0 :: rest)
    (hchain : chain30 (parse.trimmed raw.Reads)) :
    parse.Translate raw = .ok (withSums 0 (buckets (parse.trimmed raw.Reads))) := by
  have hne : raw.Reads ≠ [] := by
    intro h
    rw [h] at htrim
    simp [parse.trimmed] at htrim
  rw [parse.Translate_def, if_neg (by simp [hne]), htrim]
  have hcf : chainFrom (r0.EndTime.addSec (-1800)) (r0 :: rest) := by
    refine List.chain_cons.mpr ⟨GoTime.sub_addSec_neg30 r0.EndTime, ?_⟩
    rw [htrim] at hchain
    exact hchain
  show (match parse.transGo 0 (r0.EndTime.addSec (-1800)) 0 0 none [] (r0 :: rest) with
    | .ok stats => parse.TranslateResult.ok stats
    | .error e => parse.TranslateResult.err e) = _
  rw [transGo_buckets (r0 :: rest) _ hcf]



theorem withSums_length : ∀ (bs : List (GoTime × ℚ)) (acc : ℚ),
    (withSums acc bs).length = bs.length
  | [], _ => rfl
  | (t, v) :: rest, acc => by
    rw [withSums]
    simp [withSums_length rest]

theorem pairBuckets_length : ∀ (l : List Read), (pairBuckets l).length = l.length / 2
  | [] => rfl
  | [_] => by simp [pairBuckets]
  | _ :: _ :: rest => by
    rw [pairBuckets]
    simp [pairBuckets_length rest]
    omega

theorem buckets_length : ∀ (l : List Read), (buckets l).length = (l.length - 1) / 2
  | [] => rfl
  | [_] => by simp [buckets]
  | [_, _] => by simp [buckets]
  | _ :: _ :: _ :: rest => by
    rw [buckets]
    simp [List.length_cons, pairBuckets_length rest]
    omega

theorem withSums_map_state : ∀ (bs : List (GoTime × ℚ)) (acc : ℚ),
    (withSums acc bs).map parse.StatisticValue.state = bs.map Prod.snd
  | [], _ => rfl
  | (t, v) :: rest, acc => by
    rw [withSums]
    simp [withSums_map_state rest]

theorem withSums_map_sum : ∀ (bs : List (GoTime × ℚ)) (acc : ℚ),
    (withSums acc bs).map parse.StatisticValue.sum = runningTotals acc (bs.map Prod.snd)
  | [], _ => rfl
  | (t, v) :: rest, acc => by
    rw [withSums]
    simp only [List.map_cons]
    simp [withSums_map_sum rest, runningTotals]




/-! ## Ingestor loop lemmas -/

theorem parse.hdfLoop_nil (i : Nat) (res : Result) : parse.hdfLoop i res [] = .ok res := rfl

theorem parse.hdfLoop_cons (i : Nat) (res : Result) (record : List String)
    (rest : List (List String)) :
    parse.hdfLoop i res (record :: rest) =
      if record.length ≠ 5 then .error (.fieldCount i record.length)
      else
        match parse.parseLine i record with
        | .error e => .error e
        | .ok l =>
          if i = 1 then
            parse.hdfLoop (i + 1)
              { MPRN := l.MPRN, MeterSerialNumber := l.SerialNumber,
                ReadTypes := wantReadType,
                Reads := res.Reads ++ [⟨l.Value, l.EndTime⟩] } rest
          else if res.MPRN ≠ l.MPRN then .error (.multipleMPRN res.MPRN l.MPRN)
          else if res.MeterSerialNumber ≠ l.SerialNumber then
            .error (.multipleSerial res.MeterSerialNumber l.SerialNumber)
          else
            parse.hdfLoop (i + 1) { res with Reads := res.Reads ++ [⟨l.Value, l.EndTime⟩] }
              rest := rfl

theorem parse.parseLine_ok (i : Nat) (record : List String) (l : parse.Line)
    (h : parse.parseLine i record = .ok l) :
    l.MPRN = record.getD 0 "" ∧ l.SerialNumber = record.getD 1 "" ∧
    ∀ j, parse.parseLine j record = .ok l := by
  by_cases hcond : record.getD 3 "" ≠ wantReadType
  · unfold parse.parseLine at h
    rw [if_pos hcond] at h
    cases h
  · cases hfl : parse.parseGoFloat (record.getD 2 "") with
    | none =>
      unfold parse.parseLine at h
      rw [if_neg hcond, hfl] at h
      cases h
    | some v =>
      cases htm : parse.parseDublinTime (record.getD 4 "") with
      | none =>
        unfold parse.parseLine at h
        rw [if_neg hcond, hfl, htm] at h
        cases h
      | some t =>
        unfold parse.parseLine at h
        rw [if_neg hcond, hfl, htm] at h
        have h2 : (Except.ok (⟨record.getD 0 "", record.getD 1 "", v, t⟩ : parse.Line) :
            Except HdfError parse.Line) = .ok l := h
        obtain rfl := (Except.ok.inj h2).symm
        refine ⟨rfl, rfl, fun j => ?_⟩
        unfold parse.parseLine
        rw [if_neg hcond, hfl, htm]

theorem parsesRow_spec (r : List String) (h : parsesRow r = true) :
    r.length = 5 ∧ ∃ l : parse.Line, (∀ j, parse.parseLine j r = .ok l) ∧
      l.MPRN = r.getD 0 "" ∧ l.SerialNumber = r.getD 1 "" := by
  unfold parsesRow at h
  rw [Bool.and_eq_true] at h
  refine ⟨by simpa using h.1, ?_⟩
  cases hpl : parse.parseLine 1 r with
  | error e =>
    rw [hpl] at h
    simp at h
  | ok l =>
    obtain ⟨h1, h2, h3⟩ := parse.parseLine_ok 1 r l hpl
    exact ⟨l, h3, h1, h2⟩



theorem parse.hdfLoop_badlen (i : Nat) (res : Result) (record : List String)
    (rest : List (List String)) (hlen : record.length ≠ 5) :
    parse.hdfLoop i res (record :: rest) = .error (.fieldCount i record.length) := by
  rw [parse.hdfLoop_cons, if_pos hlen]

theorem parse.hdfLoop_badline (i : Nat) (res : Result) (record : List String)
    (rest : List (List String)) (e : HdfError) (hlen : record.length = 5)
    (hpl : parse.parseLine i record = .error e) :
    parse.hdfLoop i res (record :: rest) = .error e := by
  rw [parse.hdfLoop_cons, if_neg (by omega), hpl]

theorem parse.hdfLoop_first (res : Result) (record : List String)
    (rest : List (List String)) (l : parse.Line) (hlen : record.length = 5)
    (hpl : parse.parseLine 1 record = .ok l) :
    parse.hdfLoop 1 res (record :: rest) =
      parse.hdfLoop 2
        { MPRN := l.MPRN, MeterSerialNumber := l.SerialNumber,
          ReadTypes := wantReadType, Reads := res.Reads ++ [⟨l.Value, l.EndTime⟩] } rest := by
  rw [parse.hdfLoop_cons, if_neg (by omega), hpl]
  rfl

theorem parse.hdfLoop_mprn (i : Nat) (res : Result) (record : List String)
    (rest : List (List String)) (l : parse.Line) (hlen : record.length = 5)
    (hpl : parse.parseLine i record = .ok l) (hi : i ≠ 1) (hm : res.MPRN ≠ l.MPRN) :
    parse.hdfLoop i res (record :: rest) = .error (.multipleMPRN res.MPRN l.MPRN) := by
  rw [parse.hdfLoop_cons, if_neg (by omega), hpl]
  simp [hi, hm]

theorem parse.hdfLoop_serial (i : Nat) (res : Result) (record : List String)
    (rest : List (List String)) (l : parse.Line) (hlen : record.length = 5)
    (hpl : parse.parseLine i record = .ok l) (hi : i ≠ 1) (hm : res.MPRN = l.MPRN)
    (hs : res.MeterSerialNumber ≠ l.SerialNumber) :
    parse.hdfLoop i res (record :: rest) =
      .error (.multipleSerial res.MeterSerialNumber l.SerialNumber) := by
  rw [parse.hdfLoop_cons, if_neg (by omega), hpl]
  simp [hi, hm, hs]

theorem parse.hdfLoop_next (i : Nat) (res : Result) (record : List String)
    (rest : List (List String)) (l : parse.Line) (hlen : record.length = 5)
    (hpl : parse.parseLine i record = .ok l) (hi : i ≠ 1) (hm : res.MPRN = l.MPRN)
    (hs : res.MeterSerialNumber = l.SerialNumber) :
    parse.hdfLoop i res (record :: rest) =
      parse.hdfLoop (i + 1) { res with Reads := res.Reads ++ [⟨l.Value, l.EndTime⟩] } rest := by
  rw [parse.hdfLoop_cons, if_neg (by omega), hpl]
  simp [hi, hm, hs]

theorem hdfLoop_identity : ∀ (rows : List (List String)) (i : Nat) (res res' : Result),
    2 ≤ i → parse.hdfLoop i res rows = .ok res' →
    res'.MPRN = res.MPRN ∧ res'.MeterSerialNumber = res.MeterSerialNumber
  | [], i, res, res', _, h => by
    rw [parse.hdfLoop_nil] at h
    obtain rfl := Except.ok.inj h
    exact ⟨rfl, rfl⟩
  | record :: rest, i, res, res', hi, h => by
    by_cases hlen : record.length = 5
    · cases hpl : parse.parseLine i record with
      | error e =>
        rw [parse.hdfLoop_badline i res record rest e hlen hpl] at h
        cases h
      | ok l =>
        by_cases hm : res.MPRN = l.MPRN
        · by_cases hs : res.MeterSerialNumber = l.SerialNumber
          · rw [parse.hdfLoop_next i res record rest l hlen hpl (by omega) hm hs] at h
            exact hdfLoop_identity rest (i + 1)
              { res with Reads := res.Reads ++ [⟨l.Value, l.EndTime⟩] } res' (by omega) h
          · rw [parse.hdfLoop_serial i res record rest l hlen hpl (by omega) hm hs] at h
            cases h
        · rw [parse.hdfLoop_mprn i res record rest l hlen hpl (by omega) hm] at h
          cases h
    · rw [parse.hdfLoop_badlen i res record rest hlen] at h
      cases h

theorem hdfLoop_good_then_bad :
    ∀ (good : List (List String)) (i : Nat) (res : Result) (bad : List String)
      (tail : List (List String)),
    2 ≤ i →
    (∀ r ∈ good, parsesRow r = true ∧ r.getD 0 "" = res.MPRN ∧
      r.getD 1 "" = res.MeterSerialNumber) →
    parsesRow bad = true →
    (bad.getD 0 "" ≠ res.MPRN ∨ bad.getD 1 "" ≠ res.MeterSerialNumber) →
    parse.hdfLoop i res (good ++ bad :: tail) =
      .error (if bad.getD 0 "" ≠ res.MPRN then .multipleMPRN res.MPRN (bad.getD 0 "")
              else .multipleSerial res.MeterSerialNumber (bad.getD 1 ""))
  | [], i, res, bad, tail, hi, _, hbadp, hbad => by
    obtain ⟨hlen, l, hpl, hm, hs⟩ := parsesRow_spec bad hbadp
    rw [List.nil_append]
    by_cases hmq : bad.getD 0 "" ≠ res.MPRN
    · rw [parse.hdfLoop_mprn i res bad tail l hlen (hpl i) (by omega)
        (by rw [hm]; exact fun hh => hmq hh.symm), if_pos hmq, hm]
    · have hmq' : res.MPRN = l.MPRN := by
        rw [hm]
        exact (not_ne_iff.mp hmq).symm
      have hsq : bad.getD 1 "" ≠ res.MeterSerialNumber := hbad.resolve_left hmq
      rw [parse.hdfLoop_serial i res bad tail l hlen (hpl i) (by omega) hmq'
        (by rw [hs]; exact fun hh => hsq hh.symm), if_neg hmq, hs]
  | r :: good', i, res, bad, tail, hi, hgood, hbadp, hbad => by
    have hr := hgood r (by simp)
    have hrest : ∀ x ∈ good', parsesRow x = true ∧ x.getD 0 "" = res.MPRN ∧
        x.getD 1 "" = res.MeterSerialNumber := fun x hx => hgood x (by simp [hx])
    obtain ⟨hlen, l, hpl, hm, hs⟩ := parsesRow_spec r hr.1
    rw [List.cons_append, parse.hdfLoop_next i res r (good' ++ bad :: tail) l hlen (hpl i)
      (by omega) (by rw [hm, hr.2.1]) (by rw [hs, hr.2.2])]
    exact hdfLoop_good_then_bad good' (i + 1) _ bad tail (by omega)
      (by simpa using hrest) hbadp (by simpa using hbad)

theorem parse.HDF_cons (hd : List String) (data : List (List String)) :
    parse.HDF (hd :: data) =
      match parse.validateHeader hd with
      | some e => .error e
      | none =>
        match parse.hdfLoop 1 ⟨"", "", "", []⟩ data with
        | .error e => .error e
        | .ok res =>
            parse.splitTimes (parse.fixTimezone { res with Reads := res.Reads.reverse }) := rfl

theorem splitTimes_identity (res : Result) (out : List Result)
    (h : parse.splitTimes res = .ok out) :
    ∀ r ∈ out, r.MPRN = res.MPRN ∧ r.MeterSerialNumber = res.MeterSerialNumber := by
  unfold parse.splitTimes at h
  cases hsg : parse.splitGo [] [] none res.Reads with
  | error e =>
    rw [hsg] at h
    simp [Except.map] at h
  | ok segs =>
    rw [hsg] at h
    simp only [Except.map] at h
    obtain rfl := (Except.ok.inj h).symm
    intro r hr
    obtain ⟨l, hl, rfl⟩ := List.mem_map.mp hr
    exact ⟨rfl, rfl⟩

/-! ## Claim C1 -/

/-- Claim C1, counterexample.  The claim's neighbor chain ("if the
reading two positions earlier has an identical wall-clock value,
reclassify; OTHERWISE, if the reading two positions later exists and
the corrected instant is exactly one hour before it, adopt the
correction") disagrees with the code: on the ascending, naively-zoned
list `c1List` the pass leaves the index-2 reading (naive instant
26004600, an IST reading whose two-earlier neighbor differs but whose
two-later condition holds) unchanged, because the source tries the
two-later rule only when no reading two positions earlier exists at
all. -/
theorem c1_counterexample :
    parseV1.fixTimezoneReads c1List ≠ disambigChainSpec c1List ∧
    (parseV1.fixTimezoneReads c1List)[2]? = some ⟨1, ⟨26004600, 0⟩⟩ ∧
    (disambigChainSpec c1List)[2]? = some ⟨1, ⟨26008200, 0⟩⟩ := by
  refine ⟨?_, by decide, by decide⟩
  decide

/-- Claim C1, amended.  The disambiguation pass (older revision,
`src/parse/parse.go` lines 236–268) inspects exactly the readings whose
resolved offset is the daylight-saving one (zone `IST`); for each such
reading, when a reading two positions earlier exists the pass applies
only the identical-instant rule (reclassify one hour later exactly when
that — possibly already corrected — earlier neighbor carries the same
instant); only when no two-earlier reading exists does it consult the
reading two positions later, adopting the one-hour-later correction
exactly when that corrected instant is one hour before the later
neighbor's instant; all other readings are unchanged. -/
theorem c1_neighbor_rule_amended (reads : List Read) (i : Nat) :
    (parseV1.fixTimezoneReads reads)[i]? = (reads[i]?).map (fun r =>
      if r.EndTime.zoneName ≠ "IST" then r
      else if 2 ≤ i then
        match (parseV1.fixTimezoneReads reads)[i - 2]? with
        | some p =>
          if p.EndTime.equal r.EndTime then { r with EndTime := r.EndTime.addSec 3600 } else r
        | none => r
      else if i + 2 < reads.length then
        match reads[i + 2]? with
        | some q =>
          if q.EndTime.sub (r.EndTime.addSec 3600) = oneHour then
            { r with EndTime := r.EndTime.addSec 3600 }
          else r
        | none => r
      else r) := by
  have hfix : parseV1.fixTimezoneReads reads = pfold parseV1.fixStep reads reads.length := rfl
  by_cases hi : i < reads.length
  · rw [hfix, pfold_stable parseV1.fixStep parseV1.fixStep_getElem?_ne reads reads.length i hi,
      pfold_succ, parseV1.fixStep_getElem?_self,
      pfold_getElem?_of_le parseV1.fixStep parseV1.fixStep_getElem?_ne reads i i le_rfl]
    cases hr : reads[i]? with
    | none => rfl
    | some r =>
      simp only [Option.map_some']
      congr 1
      by_cases hz : r.EndTime.zoneName ≠ "IST"
      · simp [hz]
      · by_cases h2 : 2 ≤ i
        · have hstab : (pfold parseV1.fixStep reads i)[i - 2]? =
              (pfold parseV1.fixStep reads reads.length)[i - 2]? := by
            rw [pfold_stable parseV1.fixStep parseV1.fixStep_getElem?_ne reads i (i - 2)
                (by omega),
              pfold_stable parseV1.fixStep parseV1.fixStep_getElem?_ne reads reads.length (i - 2)
                (by omega)]
          simp only [hz, if_neg, h2, if_pos, hstab]
        · have hlen : (pfold parseV1.fixStep reads i).length = reads.length :=
            pfold_length parseV1.fixStep parseV1.fixStep_length reads i
          have hget : (pfold parseV1.fixStep reads i)[i + 2]? = reads[i + 2]? :=
            pfold_getElem?_of_le parseV1.fixStep parseV1.fixStep_getElem?_ne reads i (i + 2)
              (by omega)
          simp only [hz, if_neg, h2, hlen, hget]
          rfl
  · have hle : reads.length ≤ i := by omega
    rw [hfix, pfold_getElem?_of_le parseV1.fixStep parseV1.fixStep_getElem?_ne reads reads.length
      i hle, List.getElem?_eq_none hle]
    rfl

/-! ## Claim C2 -/

/-- Claim C2, counterexample.  On the input file with data rows at
local 01:00, 00:30, 00:00, 00:30 (newest first) on the autumn
transition day, ingestion followed by disambiguation does NOT return
the four claimed readings (00:30 daylight-saving, then 00:00, 00:30,
01:00 standard): the pipeline returns no result at all on this
input. -/
theorem c2_counterexample : parse.HDF c2Records ≠ .ok [c2Claimed] := by decide

/-- Claim C2, amended.  On that input the pipeline fails with the
"data is not sorted" ordering error: under the installed calendar
rules a wall clock of 00:30 cannot repeat (the repeated hour is
01:00–01:59, and the naive resolver maps ambiguous times to the
standard offset), so the naive instants are 23:30, 23:00, 23:30 UTC
followed by 01:00 UTC; the disambiguator (which inspects only
standard-offset readings) moves the final 01:00 reading back to
00:00 UTC, and segmentation then rejects the non-ascending pair
(23:30 UTC, 23:00 UTC) — i.e. instants 26004600 and 26002800 of the
model epoch. -/
theorem c2_autumn_vector_amended :
    parse.HDF c2Records = .error (.notSorted ⟨26004600, 0⟩ ⟨26002800, 0⟩) := by decide

/-! ## Claim C3 -/

/-- Claim C3, counterexample.  A segment of two readings (half past
then on the hour, 30 minutes apart, no leading trim) consumes an even,
non-zero count of readings, yet the Aggregator emits no StatPoint at
all: the code emits while consuming index `i` when `i % 2 == 0 && i > 0`,
i.e. after an odd total count of readings, never after an even one. -/
theorem c3_counterexample : parse.Translate c3Res = .ok [] := by decide

/-- Claim C3, amended.  For every segment whose leading trim leaves a
nonempty, 30-minute-spaced read list `rs`, the Aggregator returns
exactly the schedule `withSums 0 (buckets rs)`: a StatPoint is emitted
exactly while consuming the reading at an even, non-zero 0-based index
(an odd total count ≥ 3 of readings, not an even count as claimed);
its `start` is the instant of the reading immediately preceding the
trigger, its `state` is the accumulator's value at emission time, and
the accumulator restarts at zero after each emission — so the first
StatPoint folds the three leading readings and every later one folds
two, `(n - 1) / 2` StatPoints in all. -/
theorem c3_emission_schedule_amended (raw : Result) (r0 : Read) (rest : List Read)
    (htrim : parse.trimmed raw.Reads = r0 :: rest)
    (hchain : chain30 (parse.trimmed raw.Reads)) :
    parse.Translate raw = .ok (withSums 0 (buckets (parse.trimmed raw.Reads))) ∧
    (withSums 0 (buckets (parse.trimmed raw.Reads))).length =
      ((parse.trimmed raw.Reads).length - 1) / 2 :=
  ⟨Translate_ok raw r0 rest htrim hchain, by rw [withSums_length, buckets_length]⟩

/-- Claim C3, witness: the amended schedule on a concrete five-reading
segment. -/
theorem c3_emission_schedule_amended_witness :
    (parse.trimmed c3wRes.Reads =
      (⟨1, ⟨1800, 0⟩⟩ : Read) :: [⟨2, ⟨3600, 0⟩⟩, ⟨3, ⟨5400, 0⟩⟩, ⟨4, ⟨7200, 0⟩⟩, ⟨5, ⟨9000, 0⟩⟩] ∧
     chain30 (parse.trimmed c3wRes.Reads)) ∧
    (parse.Translate c3wRes = .ok (withSums 0 (buckets (parse.trimmed c3wRes.Reads))) ∧
     (withSums 0 (buckets (parse.trimmed c3wRes.Reads))).length =
       ((parse.trimmed c3wRes.Reads).length - 1) / 2) :=
  ⟨⟨by decide, by decide⟩,
   c3_emission_schedule_amended c3wRes ⟨1, ⟨1800, 0⟩⟩
     [⟨2, ⟨3600, 0⟩⟩, ⟨3, ⟨5400, 0⟩⟩, ⟨4, ⟨7200, 0⟩⟩, ⟨5, ⟨9000, 0⟩⟩]
     (by decide) (by decide)⟩

/-- Claim C6.  Within one segment each consumed reading adds half its
value to the accumulator — each emitted `state` is the half-sum of its
bucket's values, as `buckets` spells out — and the emitted `sum`
values are exactly the running totals, starting from zero, of the
emitted `state` values; nothing is carried across segments, since the
whole aggregation is a pure function of the one segment (its
accumulators are seeded with the literal zeros visible here). -/
theorem c6_running_sums (raw : Result) (r0 : Read) (rest : List Read)
    (htrim : parse.trimmed raw.Reads = r0 :: rest)
    (hchain : chain30 (parse.trimmed raw.Reads)) :
    ∃ stats, parse.Translate raw = .ok stats ∧
      stats.map parse.StatisticValue.state = (buckets (parse.trimmed raw.Reads)).map Prod.snd ∧
      stats.map parse.StatisticValue.sum =
        runningTotals 0 (stats.map parse.StatisticValue.state) := by
  refine ⟨withSums 0 (buckets (parse.trimmed raw.Reads)),
    Translate_ok raw r0 rest htrim hchain, withSums_map_state _ _, ?_⟩
  rw [withSums_map_state, withSums_map_sum]

/-- Claim C6, witness: the running sums on a concrete three-reading
segment. -/
theorem c6_running_sums_witness :
    (parse.trimmed c6wRes.Reads =
      (⟨2, ⟨12600, 0⟩⟩ : Read) :: [⟨4, ⟨14400, 0⟩⟩, ⟨6, ⟨16200, 0⟩⟩] ∧
     chain30 (parse.trimmed c6wRes.Reads)) ∧
    (∃ stats, parse.Translate c6wRes = .ok stats ∧
      stats.map parse.StatisticValue.state = (buckets (parse.trimmed c6wRes.Reads)).map Prod.snd ∧
      stats.map parse.StatisticValue.sum =
        runningTotals 0 (stats.map parse.StatisticValue.state)) :=
  ⟨⟨by decide, by decide⟩,
   c6_running_sums c6wRes ⟨2, ⟨12600, 0⟩⟩ [⟨4, ⟨14400, 0⟩⟩, ⟨6, ⟨16200, 0⟩⟩]
     (by decide) (by decide)⟩


/-! ## Claim C4 -/

/-- Claim C4 (code bug).  The Aggregator is claimed never to crash, in
particular on a segment whose only reading lands exactly on the hour:
but on such a segment (one reading at 02:00 UTC, an instant the
leading trim drops) `Translate` evaluates `reads[0]` on an empty
slice — a Go runtime panic, not a returned error. -/
theorem c4_single_on_hour_reading_crash :
    parse.Translate ⟨"mprn", "serial", wantReadType, [⟨1, ⟨7200, 0⟩⟩]⟩ = .crash ∧
    parse.isRound (⟨7200, 0⟩ : GoTime) = true := by
  exact ⟨by decide, by decide⟩

/-! ## Claim C5 -/

/-- Claim C5.  On a series of aligned readings the Segmenter walks
consecutive pairs: it fails (and the error is the "data not sorted"
one) exactly when some consecutive delta is not positive; otherwise it
returns a nonempty segment list whose segments concatenate back to the
input, are internally spaced at exactly 30 minutes, meet at boundaries
that are positive and not 30 minutes (so segments are maximal, ascend
and never overlap), are each nonempty when the series is, and whose
first segment opens with the series' first reading. -/
theorem c5_segmenter_walk (res : Result) (hal : allAligned res.Reads) :
    ((∃ e, parse.splitTimes res = .error e) ↔ ¬ chainPos none res.Reads) ∧
    (∀ e, parse.splitTimes res = .error e → ∃ lt ct, e = .notSorted lt ct) ∧
    (∀ out, parse.splitTimes res = .ok out →
      out ≠ [] ∧
      (out.map Result.Reads).flatten = res.Reads ∧
      (∀ s ∈ out, chain30 s.Reads) ∧
      List.Chain' (fun s t => gapOk s.Reads t.Reads) out ∧
      (res.Reads ≠ [] → ∀ s ∈ out, s.Reads ≠ []) ∧
      (out.head?.map Result.Reads).bind List.head? = res.Reads.head?) := by
  by_cases hpos : chainPos none res.Reads
  · have hok : parse.splitGo [] [] none res.Reads =
        .ok ([] ++ splitSpec [] none res.Reads) :=
      splitGo_ok res.Reads [] [] none hal hpos
    rw [List.nil_append] at hok
    have hst : parse.splitTimes res =
        .ok ((splitSpec [] none res.Reads).map (fun l => { res with Reads := l })) := by
      unfold parse.splitTimes
      rw [hok]
      rfl
    refine ⟨?_, ?_, ?_⟩
    · constructor
      · rintro ⟨e, he⟩
        rw [hst] at he
        cases he
      · intro h
        exact absurd hpos h
    · intro e he
      rw [hst] at he
      cases he
    · intro out hout
      rw [hst] at hout
      have hout' : out = (splitSpec [] none res.Reads).map (fun l => { res with Reads := l }) :=
        (Except.ok.inj hout).symm
      subst hout'
      refine ⟨?_, ?_, ?_, ?_, ?_, ?_⟩
      · intro h
        exact splitSpec_ne_nil res.Reads [] none (List.map_eq_nil_iff.mp h)
      · rw [List.map_map]
        have hcomp : (Result.Reads ∘ fun l => { res with Reads := l }) = id := rfl
        rw [hcomp, List.map_id, splitSpec_flatten]
        simp
      · intro s hs
        obtain ⟨l, hl, rfl⟩ := List.mem_map.mp hs
        exact splitSpec_chain30 res.Reads [] none (by simp) (by simp [chain30]) hpos l hl
      · exact (@List.chain'_map Result (List Read) (fun s t => gapOk s.Reads t.Reads)
          (fun l => { res with Reads := l }) (splitSpec [] none res.Reads)).mpr
          (splitSpec_gapChain res.Reads [] none (by simp) hpos)
      · intro hne s hs
        obtain ⟨l, hl, rfl⟩ := List.mem_map.mp hs
        cases hr : res.Reads with
        | nil => exact absurd hr hne
        | cons r rest =>
          rw [hr] at hl
          rw [splitSpec] at hl
          exact splitSpec_all_ne_nil rest ([] ++ [r]) (some r.EndTime) (by simp) l hl
      · rw [List.head?_map, Option.map_map]
        have hcomp : (Result.Reads ∘ fun l => { res with Reads := l }) = id := rfl
        rw [hcomp, Option.map_id]
        have h := splitSpec_head res.Reads [] none (by simp)
        simpa using h
  · obtain ⟨lt, ct, herr⟩ := splitGo_err_of_not_chainPos res.Reads [] [] none hal hpos
    have hst : parse.splitTimes res = .error (.notSorted lt ct) := by
      unfold parse.splitTimes
      rw [herr]
      rfl
    refine ⟨?_, ?_, ?_⟩
    · exact ⟨fun _ => hpos, fun _ => ⟨_, hst⟩⟩
    · intro e he
      rw [hst] at he
      exact ⟨lt, ct, (Except.error.inj he).symm⟩
    · intro out hout
      rw [hst] at hout
      cases hout



/-- Claim C5, witness: the segmenter theorem applied to a concrete
three-reading series with one gap. -/
theorem c5_segmenter_walk_witness :
    allAligned c5wRes.Reads ∧
    (((∃ e, parse.splitTimes c5wRes = .error e) ↔ ¬ chainPos none c5wRes.Reads) ∧
     (∀ e, parse.splitTimes c5wRes = .error e → ∃ lt ct, e = .notSorted lt ct) ∧
     (∀ out, parse.splitTimes c5wRes = .ok out →
       out ≠ [] ∧
       (out.map Result.Reads).flatten = c5wRes.Reads ∧
       (∀ s ∈ out, chain30 s.Reads) ∧
       List.Chain' (fun s t => gapOk s.Reads t.Reads) out ∧
       (c5wRes.Reads ≠ [] → ∀ s ∈ out, s.Reads ≠ []) ∧
       (out.head?.map Result.Reads).bind List.head? = c5wRes.Reads.head?)) :=
  ⟨by decide, c5_segmenter_walk c5wRes (by decide)⟩

/-! ## Claim C8 -/

/-- Claim C8, counterexample.  A misaligned reading (02:33, instant
9180) is present in the series, yet segmentation fails with the
ordering error, not an alignment error: the walk meets the unsorted
pair (02:00, 01:30) first and never checks the misaligned reading, so
"fails with a hard format error iff some reading is misaligned" is
false as stated. -/
theorem c8_counterexample :
    parse.splitTimes c8Res = .error (.notSorted ⟨7200, 0⟩ ⟨5400, 0⟩) ∧
    misaligned (⟨9180, 0⟩ : GoTime) ∧ (⟨1, ⟨9180, 0⟩⟩ : Read) ∈ c8Res.Reads :=
  ⟨by decide, by decide, by decide⟩

/-- Claim C8, amended.  Segmentation fails with the alignment ("hard
format") error if and only if the series decomposes as `p ++ r :: s`
where `r`'s instant has a clock minute other than 0 or 30 or a nonzero
seconds or sub-second component, every reading of the prefix `p` is
aligned, and the deltas inside `p` are all positive — that is, exactly
when the first violation the walk meets is a misalignment.  In
particular all aligned readings pass the check unchanged (when every
reading is aligned no alignment error can occur). -/
theorem c8_alignment_amended (res : Result) :
    (∃ ts, parse.splitTimes res = .error (.notAligned ts)) ↔
    (∃ p r s, res.Reads = p ++ r :: s ∧ misaligned r.EndTime ∧
      (∀ x ∈ p, ¬ misaligned x.EndTime) ∧ chainPos none p) := by
  have hmap : ∀ ts, parse.splitTimes res = .error (.notAligned ts) ↔
      parse.splitGo [] [] none res.Reads = .error (.notAligned ts) := by
    intro ts
    unfold parse.splitTimes
    cases parse.splitGo [] [] none res.Reads <;> simp [Except.map]
  constructor
  · rintro ⟨ts, h⟩
    exact (splitGo_alignErr_iff res.Reads [] [] none).mp ⟨ts, (hmap ts).mp h⟩
  · intro h
    obtain ⟨ts, h2⟩ := (splitGo_alignErr_iff res.Reads [] [] none).mpr h
    exact ⟨ts, (hmap ts).mpr h2⟩


/-! ## Claim C9 -/

/-- Claim C9.  For an input of exactly the valid five-column header
line and no data rows, ingestion succeeds with exactly one segment
whose reading list is empty — neither an error nor an empty segment
list — and the empty-input condition surfaces only when the Aggregator
rejects that empty segment with its "not enough data" error. -/
theorem c9_header_only_single_empty_segment :
    parse.HDF [headerFormat] = .ok [⟨"", "", "", []⟩] ∧
    parse.Translate ⟨"", "", "", []⟩ = .err .notEnoughData := by
  exact ⟨by decide, by decide⟩

/-! ## Claim C10 -/

/-- Claim C10.  The disambiguation pass modifies only timestamps: it
preserves the meter identifier, serial number and reading-type label
of the series, and the reads' count, positions and values (stated as
equality of the position-indexed value lists). -/
theorem c10_disambiguation_frame (res : Result) :
    (parse.fixTimezone res).MPRN = res.MPRN ∧
    (parse.fixTimezone res).MeterSerialNumber = res.MeterSerialNumber ∧
    (parse.fixTimezone res).ReadTypes = res.ReadTypes ∧
    (parse.fixTimezone res).Reads.length = res.Reads.length ∧
    (parse.fixTimezone res).Reads.map Read.Value = res.Reads.map Read.Value := by
  refine ⟨rfl, rfl, rfl, ?_, foldl_fixStep_map_value _ _⟩
  simpa using congrArg List.length
    (foldl_fixStep_map_value (List.range res.Reads.length) res.Reads)

/-! ## Claim C7 -/

/-- Claim C7.  The ingestor takes the first data row's meter identifier
(field 0) and serial number (field 1) as the series' identity: (a)
whenever `HDF` succeeds, every produced segment carries exactly the
first data row's fields 0 and 1; (b) when the rows up to some later
row parse and agree with that identity but the later row's identifier
or serial number differs, `HDF` fails with the hard format error
reporting both conflicting values (the identifier check running before
the serial-number check), and no segments are produced. -/
theorem c7_identity_check :
    (∀ (first : List String) (rest : List (List String)) (out : List Result),
        parse.HDF (headerFormat :: first :: rest) = .ok out →
        ∀ r ∈ out, r.MPRN = first.getD 0 "" ∧ r.MeterSerialNumber = first.getD 1 "") ∧
    (∀ (first bad : List String) (good tail : List (List String)),
        parsesRow first = true →
        (∀ x ∈ good, parsesRow x = true ∧ x.getD 0 "" = first.getD 0 "" ∧
          x.getD 1 "" = first.getD 1 "") →
        parsesRow bad = true →
        (bad.getD 0 "" ≠ first.getD 0 "" ∨ bad.getD 1 "" ≠ first.getD 1 "") →
        parse.HDF (headerFormat :: first :: (good ++ bad :: tail)) =
          .error (if bad.getD 0 "" ≠ first.getD 0 ""
                  then .multipleMPRN (first.getD 0 "") (bad.getD 0 "")
                  else .multipleSerial (first.getD 1 "") (bad.getD 1 ""))) := by
  constructor
  · intro first rest out h r hr
    cases hloop : parse.hdfLoop 1 ⟨"", "", "", []⟩ (first :: rest) with
    | error e =>
      rw [parse.HDF_cons, show parse.validateHeader headerFormat = none from by decide,
        hloop] at h
      exact Except.noConfusion h
    | ok res =>
      rw [parse.HDF_cons, show parse.validateHeader headerFormat = none from by decide,
        hloop] at h
      have h2 : parse.splitTimes
          (parse.fixTimezone { res with Reads := res.Reads.reverse }) = .ok out := h
      by_cases hlen : first.length = 5
      · cases hpl : parse.parseLine 1 first with
        | error e =>
          rw [parse.hdfLoop_badline 1 ⟨"", "", "", []⟩ first rest e hlen hpl] at hloop
          exact Except.noConfusion hloop
        | ok l =>
          rw [parse.hdfLoop_first ⟨"", "", "", []⟩ first rest l hlen hpl] at hloop
          obtain ⟨hm, hs⟩ := hdfLoop_identity rest 2 _ res (by omega) hloop
          obtain ⟨hm0, hs0, -⟩ := parse.parseLine_ok 1 first l hpl
          have hid := splitTimes_identity _ out h2 r hr
          constructor
          · have e1 : r.MPRN = res.MPRN := hid.1
            rw [e1, hm]
            exact hm0
          · have e2 : r.MeterSerialNumber = res.MeterSerialNumber := hid.2
            rw [e2, hs]
            exact hs0
      · rw [parse.hdfLoop_badlen 1 ⟨"", "", "", []⟩ first rest hlen] at hloop
        exact Except.noConfusion hloop
  · intro first bad good tail hfp hgood hbp hbad
    obtain ⟨hlen, l, hpl, hm, hs⟩ := parsesRow_spec first hfp
    rw [parse.HDF_cons, show parse.validateHeader headerFormat = none from by decide,
      parse.hdfLoop_first ⟨"", "", "", []⟩ first (good ++ bad :: tail) l hlen (hpl 1)]
    have hg2 : ∀ x ∈ good, parsesRow x = true ∧ x.getD 0 "" = l.MPRN ∧
        x.getD 1 "" = l.SerialNumber := by
      intro x hx
      refine ⟨(hgood x hx).1, ?_, ?_⟩
      · rw [(hgood x hx).2.1]
        exact hm.symm
      · rw [(hgood x hx).2.2]
        exact hs.symm
    have hb2 : bad.getD 0 "" ≠ l.MPRN ∨ bad.getD 1 "" ≠ l.SerialNumber := by
      refine hbad.imp (fun hh => ?_) (fun hh => ?_)
      · rw [hm]
        exact hh
      · rw [hs]
        exact hh
    have hloopB : parse.hdfLoop 2
        { MPRN := l.MPRN, MeterSerialNumber := l.SerialNumber,
          ReadTypes := wantReadType,
          Reads := (⟨"", "", "", []⟩ : Result).Reads ++ [⟨l.Value, l.EndTime⟩] }
        (good ++ bad :: tail) =
        .error (if bad.getD 0 "" ≠ l.MPRN then .multipleMPRN l.MPRN (bad.getD 0 "")
                else .multipleSerial l.SerialNumber (bad.getD 1 "")) :=
      hdfLoop_good_then_bad good 2 _ bad tail (by omega) hg2 hbp hb2
    rw [hloopB, hm, hs]

/-- Witness for C7: a one-row file whose segment carries the row's
identity, and a two-row file whose second row has a different MPRN. -/
theorem c7_identity_check_witness :
    (parse.HDF (headerFormat :: c7rowA :: []) = .ok c7out ∧
      c7out.headI.MPRN = c7rowA.getD 0 "" ∧
      c7out.headI.MeterSerialNumber = c7rowA.getD 1 "") ∧
    parse.HDF (headerFormat :: c7rowA :: ([] ++ c7rowBad :: [])) =
      .error (if c7rowBad.getD 0 "" ≠ c7rowA.getD 0 ""
              then .multipleMPRN (c7rowA.getD 0 "") (c7rowBad.getD 0 "")
              else .multipleSerial (c7rowA.getD 1 "") (c7rowBad.getD 1 "")) := by
  have hok : parse.HDF (headerFormat :: c7rowA :: []) = .ok c7out := rfl
  have hne : c7out ≠ [] := by
    intro hh
    have hlen1 : c7out.length = 1 := rfl
    rw [hh] at hlen1
    exact absurd hlen1 (by decide)
  have hmem : c7out.headI ∈ c7out := by
    cases hc : c7out with
    | nil => exact absurd hc hne
    | cons a ll => exact List.mem_cons_self a ll
  refine ⟨⟨hok, c7_identity_check.1 c7rowA [] c7out hok c7out.headI hmem⟩,
    c7_identity_check.2 c7rowA c7rowBad [] [] (by decide) (by simp) (by decide)
      (Or.inl (by decide))⟩

end Esb2ha
